import Mathlib

/-!
# Verification of the resort booking backend core

Shallow embedding of the booking core of the repository
(`routes/bookings.py`, `routes/api_compat.py`) and proofs about it.

Python dictionaries (Mongo documents) are modelled as association lists of
`String × Val`, where `Val` is an inductive type of the Python/BSON values
that the embedded code manipulates.  Fallible Python code (code that can
raise) is modelled in the `Except Unit` monad (the exact exception class is
irrelevant to the embedded handlers: they catch broad `Exception`).
-/

/-- A Python/BSON value as stored in a document field.  `VOid` is a BSON
ObjectId (carried as its hex string).  Floats do not occur in the embedded
code paths and are not modelled. -/
inductive Val where
  | VNone  : Val
  | VBool  : Bool → Val
  | VInt   : Int → Val
  | VStr   : String → Val
  | VOid   : String → Val
  | VList  : List Val → Val
  | VDict  : List (String × Val) → Val

open Val

mutual

/-- Decidable equality on `Val` (not derivable: nested inductive). -/
def Val.decEq : (a b : Val) → Decidable (a = b)
  | VNone, VNone => isTrue rfl
  | VBool a, VBool b =>
      if h : a = b then isTrue (h ▸ rfl)
      else isFalse (fun he => h (Val.VBool.inj he))
  | VInt a, VInt b =>
      if h : a = b then isTrue (h ▸ rfl)
      else isFalse (fun he => h (Val.VInt.inj he))
  | VStr a, VStr b =>
      if h : a = b then isTrue (h ▸ rfl)
      else isFalse (fun he => h (Val.VStr.inj he))
  | VOid a, VOid b =>
      if h : a = b then isTrue (h ▸ rfl)
      else isFalse (fun he => h (Val.VOid.inj he))
  | VList a, VList b =>
      match Val.decEqList a b with
      | isTrue h => isTrue (h ▸ rfl)
      | isFalse h => isFalse (fun he => h (Val.VList.inj he))
  | VDict a, VDict b =>
      match Val.decEqDict a b with
      | isTrue h => isTrue (h ▸ rfl)
      | isFalse h => isFalse (fun he => h (Val.VDict.inj he))
  | VNone, VBool _ => isFalse (fun h => Val.noConfusion h)
  | VNone, VInt _ => isFalse (fun h => Val.noConfusion h)
  | VNone, VStr _ => isFalse (fun h => Val.noConfusion h)
  | VNone, VOid _ => isFalse (fun h => Val.noConfusion h)
  | VNone, VList _ => isFalse (fun h => Val.noConfusion h)
  | VNone, VDict _ => isFalse (fun h => Val.noConfusion h)
  | VBool _, VNone => isFalse (fun h => Val.noConfusion h)
  | VBool _, VInt _ => isFalse (fun h => Val.noConfusion h)
  | VBool _, VStr _ => isFalse (fun h => Val.noConfusion h)
  | VBool _, VOid _ => isFalse (fun h => Val.noConfusion h)
  | VBool _, VList _ => isFalse (fun h => Val.noConfusion h)
  | VBool _, VDict _ => isFalse (fun h => Val.noConfusion h)
  | VInt _, VNone => isFalse (fun h => Val.noConfusion h)
  | VInt _, VBool _ => isFalse (fun h => Val.noConfusion h)
  | VInt _, VStr _ => isFalse (fun h => Val.noConfusion h)
  | VInt _, VOid _ => isFalse (fun h => Val.noConfusion h)
  | VInt _, VList _ => isFalse (fun h => Val.noConfusion h)
  | VInt _, VDict _ => isFalse (fun h => Val.noConfusion h)
  | VStr _, VNone => isFalse (fun h => Val.noConfusion h)
  | VStr _, VBool _ => isFalse (fun h => Val.noConfusion h)
  | VStr _, VInt _ => isFalse (fun h => Val.noConfusion h)
  | VStr _, VOid _ => isFalse (fun h => Val.noConfusion h)
  | VStr _, VList _ => isFalse (fun h => Val.noConfusion h)
  | VStr _, VDict _ => isFalse (fun h => Val.noConfusion h)
  | VOid _, VNone => isFalse (fun h => Val.noConfusion h)
  | VOid _, VBool _ => isFalse (fun h => Val.noConfusion h)
  | VOid _, VInt _ => isFalse (fun h => Val.noConfusion h)
  | VOid _, VStr _ => isFalse (fun h => Val.noConfusion h)
  | VOid _, VList _ => isFalse (fun h => Val.noConfusion h)
  | VOid _, VDict _ => isFalse (fun h => Val.noConfusion h)
  | VList _, VNone => isFalse (fun h => Val.noConfusion h)
  | VList _, VBool _ => isFalse (fun h => Val.noConfusion h)
  | VList _, VInt _ => isFalse (fun h => Val.noConfusion h)
  | VList _, VStr _ => isFalse (fun h => Val.noConfusion h)
  | VList _, VOid _ => isFalse (fun h => Val.noConfusion h)
  | VList _, VDict _ => isFalse (fun h => Val.noConfusion h)
  | VDict _, VNone => isFalse (fun h => Val.noConfusion h)
  | VDict _, VBool _ => isFalse (fun h => Val.noConfusion h)
  | VDict _, VInt _ => isFalse (fun h => Val.noConfusion h)
  | VDict _, VStr _ => isFalse (fun h => Val.noConfusion h)
  | VDict _, VOid _ => isFalse (fun h => Val.noConfusion h)
  | VDict _, VList _ => isFalse (fun h => Val.noConfusion h)

/-- Decidable equality on lists of `Val`. -/
def Val.decEqList : (a b : List Val) → Decidable (a = b)
  | [], [] => isTrue rfl
  | [], _ :: _ => isFalse (fun h => List.noConfusion h)
  | _ :: _, [] => isFalse (fun h => List.noConfusion h)
  | x :: xs, y :: ys =>
      match Val.decEq x y with
      | isTrue h1 =>
          match Val.decEqList xs ys with
          | isTrue h2 => isTrue (h1 ▸ h2 ▸ rfl)
          | isFalse h2 => isFalse (fun he => h2 (List.cons.inj he).2)
      | isFalse h1 => isFalse (fun he => h1 (List.cons.inj he).1)

/-- Decidable equality on association lists of `String × Val`. -/
def Val.decEqDict : (a b : List (String × Val)) → Decidable (a = b)
  | [], [] => isTrue rfl
  | [], _ :: _ => isFalse (fun h => List.noConfusion h)
  | _ :: _, [] => isFalse (fun h => List.noConfusion h)
  | (k, v) :: xs, (k', v') :: ys =>
      if hk : k = k' then
        match Val.decEq v v' with
        | isTrue hv =>
            match Val.decEqDict xs ys with
            | isTrue ht => isTrue (by rw [hk, hv, ht])
            | isFalse ht => isFalse (fun he => ht (List.cons.inj he).2)
        | isFalse hv =>
            isFalse (fun he => hv (congrArg Prod.snd (List.cons.inj he).1))
      else isFalse (fun he => hk (congrArg Prod.fst (List.cons.inj he).1))

end

instance : DecidableEq Val := Val.decEq

/-- A Python dict / Mongo document. -/
abbrev PyDict := List (String × Val)

/-- Python truthiness (`bool(v)`): `None`, `False`, `0`, `""`, `[]`, `{}`
are falsy; everything else (including any ObjectId) is truthy. -/
def Val.truthy : Val → Bool
  | VNone => false
  | VBool b => b
  | VInt n => n != 0
  | VStr s => s != ""
  | VOid _ => true
  | VList l => !l.isEmpty
  | VDict l => !l.isEmpty

/-- Python `a or b`: `a` if truthy else `b`. -/
def pyOr (a b : Val) : Val := if a.truthy then a else b

/-- Python `d.get(k)` on a dict: the stored value, `None` if absent. -/
def dictGet (d : PyDict) (k : String) : Val :=
  match d.find? (fun kv => kv.1 = k) with
  | some kv => kv.2
  | none => VNone

/-- Python `k in d` on a dict. -/
def dictHasKey (d : PyDict) (k : String) : Bool :=
  d.any (fun kv => kv.1 = k)

/-- Python `d[k]` on a dict: raises `KeyError` when the key is absent. -/
def dictGetItem (d : PyDict) (k : String) : Except Unit Val :=
  match d.find? (fun kv => kv.1 = k) with
  | some kv => .ok kv.2
  | none => .error ()

instance {ε α : Type} [DecidableEq ε] [DecidableEq α] : DecidableEq (Except ε α) := fun a b =>
  match a, b with
  | .ok x, .ok y =>
      if h : x = y then isTrue (h ▸ rfl)
      else isFalse (fun he => h (Except.ok.inj he))
  | .error x, .error y =>
      if h : x = y then isTrue (h ▸ rfl)
      else isFalse (fun he => h (Except.error.inj he))
  | .ok _, .error _ => isFalse (fun h => Except.noConfusion h)
  | .error _, .ok _ => isFalse (fun h => Except.noConfusion h)

/-- A nonempty run of decimal digits (used by the model of Python `int(str)`). -/
def isDigitL (cs : List Char) : Bool :=
  !cs.isEmpty && cs.all (·.isDigit)

/-- Parse a decimal natural number from a digit run. -/
def digitsToNatL (cs : List Char) : Nat :=
  cs.foldl (fun acc c => acc * 10 + (c.toNat - '0'.toNat)) 0

/-- Model of Python `int(s)` on a string: an optional sign followed by
digits (whitespace stripping and underscore separators are not modelled;
no embedded input uses them). -/
def pyIntOfStr (s : String) : Except Unit Int :=
  match s.data with
  | '-' :: rest => if isDigitL rest then .ok (-(digitsToNatL rest : Int)) else .error ()
  | '+' :: rest => if isDigitL rest then .ok (digitsToNatL rest) else .error ()
  | cs => if isDigitL cs then .ok (digitsToNatL cs) else .error ()

/-- Model of Python `int(v)`: ints pass through, bools count as 0/1,
numeric strings parse, everything else raises (`TypeError`/`ValueError`). -/
def pyIntCast : Val → Except Unit Int
  | VInt n => .ok n
  | VBool b => .ok (if b then 1 else 0)
  | VStr s => pyIntOfStr s
  | _ => .error ()

/-- Python `isinstance(v, int)`: true for ints and bools (`bool` is a
subclass of `int`). -/
def isInstInt : Val → Bool
  | VInt _ => true
  | VBool _ => true
  | _ => false

/-- The numeric value of an int-instance (`True == 1`, `False == 0`). -/
def numVal : Val → Int
  | VInt n => n
  | VBool b => if b then 1 else 0
  | _ => 0

/-- The numeric reading of a Python int instance, when there is one
(`True` counts as 1, `False` as 0). -/
def Val.asNum : Val → Option Int
  | VInt n => some n
  | VBool b => some (if b then 1 else 0)
  | _ => none

/-- Python `v < w`: numeric against numeric and string against string are
ordered; other pairs raise `TypeError`.  (Python additionally orders
list/list and tuple/tuple lexicographically; the embedded code only ever
compares prices and sort keys, which the claims concern for numbers and
strings, so those pairs are modelled as errors.) -/
def pyLt (a b : Val) : Except Unit Bool :=
  match a.asNum, b.asNum with
  | some x, some y => .ok (decide (x < y))
  | _, _ =>
    match a, b with
    | VStr s, VStr t => .ok (decide (s < t))
    | _, _ => .error ()

/-- Python `a + b` as used by `sum(...)` over prices: numeric plus
numeric; other pairs raise (`sum` starts from the int 0, so a str or list
price raises on the first addition). -/
def pyAdd (a b : Val) : Except Unit Val :=
  match a.asNum, b.asNum with
  | some x, some y => .ok (VInt (x + y))
  | _, _ => .error ()

/-- Python `sum(vs)` (starts from the int `0`). -/
def pySum (vs : List Val) : Except Unit Val :=
  vs.foldlM pyAdd (VInt 0)

/-- Python `(v).lower()`: defined on strings only, otherwise raises
`AttributeError`. -/
def pyLower (v : Val) : Except Unit String :=
  match v with
  | VStr s => .ok s.toLower
  | _ => .error ()

/-! ## `_room_capacity` (routes/api_compat.py lines 46-83) -/

/-- The `extra_beds`-or-`extra_bedding` value used twice in
`_room_capacity`:
`room.get("extra_beds") if room.get("extra_beds") is not None else room.get("extra_bedding")`. -/
def extraBedVal (room : PyDict) : Val :=
  if dictGet room "extra_beds" ≠ VNone then dictGet room "extra_beds"
  else dictGet room "extra_bedding"

/-- The explicit adults/children branch of `_room_capacity` (the body of
the outer `try`).  Returns `some cap` when the branch `return`s, `none`
when it falls through — either because neither key is present or because
an `int()` conversion raised and the outer `except Exception: pass` caught
it.  The inner `try/except` around `int(eb)` adds 0 on failure. -/
def capacityAdultsBranch (room : PyDict) (allow_extra_beds : Bool) : Option Int :=
  if dictHasKey room "capacity_adults" || dictHasKey room "capacity_children" then
    match pyIntCast (pyOr (dictGet room "capacity_adults") (VInt 0)),
          pyIntCast (pyOr (dictGet room "capacity_children") (VInt 0)) with
    | .ok a, .ok c =>
        let cap := a + c
        if allow_extra_beds then
          let eb := extraBedVal room
          let add :=
            if eb = VNone then 0
            else match pyIntCast eb with
              | .ok n => n
              | .error _ => 0
          some (cap + add)
        else some cap
    | _, _ => none
  else none

/-- One iteration of the `bedConfig` loop of `_room_capacity` (lines
70-76): `cnt = b.get("count") or 1` — which raises when the entry `b` is
not a dict — then `cap += int(cnt)` with a `try/except` that adds 1 when
the conversion fails. -/
def bedConfigStep (cap : Int) (b : Val) : Except Unit Int :=
  match b with
  | VDict kvs =>
      match pyIntCast (pyOr (dictGet kvs "count") (VInt 1)) with
      | .ok n => .ok (cap + n)
      | .error _ => .ok (cap + 1)
  | _ => .error ()

/-- The capacity/sleeps/bedConfig fallback of `_room_capacity` (code after
the outer `try`, before the `allow_extra_beds` tail).  The `bedConfig`
iteration raises when an entry is not a dict (`b.get("count")` has no
guarding `try`), and when the field is truthy but not a list (iterating a
non-list eventually raises at `b.get`). -/
def capacityBase (room : PyDict) : Except Unit Int :=
  if dictHasKey room "capacity" && isInstInt (dictGet room "capacity") then
    .ok (numVal (dictGet room "capacity"))
  else if dictHasKey room "sleeps" && isInstInt (dictGet room "sleeps") then
    .ok (numVal (dictGet room "sleeps"))
  else
    match pyOr (dictGet room "bedConfig") (VList []) with
    | VList items => items.foldlM bedConfigStep (0 : Int)
    | _ => .error ()

/-- `_room_capacity(room, allow_extra_beds)` from routes/api_compat.py. -/
def room_capacity (room : Option PyDict) (allow_extra_beds : Bool) : Except Unit Int :=
  match room with
  | none => .ok 0
  | some r =>
    match capacityAdultsBranch r allow_extra_beds with
    | some cap => .ok cap
    | none => do
        let base ← capacityBase r
        if allow_extra_beds then
          let eb := extraBedVal r
          if isInstInt eb then pure (base + numVal eb)
          else pure (base + 1)
        else pure base

/-! ## `allocate_rooms` (routes/api_compat.py lines 86-142) -/

/-- One element of the `annotated` list built by `allocate_rooms`:
`{"room": r, "cap": _room_capacity(r, allow_extra_beds), "price": ...}`. -/
structure Annot where
  room : PyDict
  cap : Int
  price : Val
deriving DecidableEq

/-- `r.get("price_per_night") or r.get("pricePerNight") or r.get("price") or 0`. -/
def roomPrice (r : PyDict) : Val :=
  pyOr (dictGet r "price_per_night")
    (pyOr (dictGet r "pricePerNight") (pyOr (dictGet r "price") (VInt 0)))

/-- The annotation loop of `allocate_rooms`; `_room_capacity` may raise. -/
def annotate (allow_extra_beds : Bool) (rooms : List PyDict) : Except Unit (List Annot) :=
  rooms.mapM (fun r => do
    let cap ← room_capacity (some r) allow_extra_beds
    pure ⟨r, cap, roomPrice r⟩)

/-- `(r.get(k) or "").lower()` as used by the preferred-type filter. -/
def slugLower (r : PyDict) (k : String) : Except Unit String :=
  pyLower (pyOr (dictGet r k) (VStr ""))

/-- Whether one room passes the preferred-type filter (match on lowercased
slug or type against the lowercased preference set). -/
def matchesPref (prefs : List String) (r : PyDict) : Except Unit Bool := do
  let slug ← slugLower r "slug"
  let rtype ← slugLower r "type"
  pure (prefs.contains slug || prefs.contains rtype)

/-- Monadic filter (the preferred-type loop builds `filtered` in order). -/
def filterPrefM (prefs : List String) : List PyDict → Except Unit (List PyDict)
  | [] => .ok []
  | r :: rest => do
    let keep ← matchesPref prefs r
    let tail ← filterPrefM prefs rest
    pure (if keep then r :: tail else tail)

/-- Lines 89-100 of `allocate_rooms`: filter candidates to the preferred
room types when any are given; when the filter yields nothing fall back to
the full candidate list.  (`if preferred_room_types:` — `None` and the
empty list are both falsy.) -/
def filterPreferred (candidates : List PyDict) (prefs : Option (List String)) :
    Except Unit (List PyDict) :=
  match prefs with
  | none => .ok candidates
  | some [] => .ok candidates
  | some ps => do
    let lowered := ps.map (·.toLower)
    let filtered ← filterPrefM lowered candidates
    pure (if filtered.isEmpty then candidates else filtered)

/-- Python `min(xs, key=...)` over a nonempty list: keeps the earliest
element whose key is strictly smaller than the running minimum's. -/
def pyMinBy (key : Annot → Val) (x : Annot) (xs : List Annot) : Except Unit Annot :=
  xs.foldlM (fun best a => do
    let lt ← pyLt (key a) (key best)
    pure (if lt then a else best)) x

/-- `itertools.combinations`, in its emission order (lexicographic by
input position). -/
def combosL {α : Type} : Nat → List α → List (List α)
  | 0, _ => [[]]
  | _ + 1, [] => []
  | k + 1, x :: xs => ((combosL k xs).map (x :: ·)) ++ combosL (k + 1) xs

/-- The running best combination of the `k`-combination search:
`best_combo`, `best_k`, `best_price`. -/
structure BestCombo where
  combo : List Annot
  k : Nat
  price : Val
deriving DecidableEq

/-- The body of the inner combination loop: if the combination's total
capacity meets the demand, compute its total price and take it when it
beats the running best (`best is None or k < best_k or
(k == best_k and price < best_price)`). -/
def comboStep (guests : Int) (k : Nat) (best : Option BestCombo) (c : List Annot) :
    Except Unit (Option BestCombo) :=
  if guests ≤ (c.map (·.cap)).sum then do
    let price ← pySum (c.map (·.price))
    match best with
    | none => pure (some ⟨c, k, price⟩)
    | some b =>
        if k < b.k then pure (some ⟨c, k, price⟩)
        else if k = b.k then do
          let lt ← pyLt price b.price
          pure (if lt then some ⟨c, k, price⟩ else some b)
        else pure (some b)
  else pure best

/-- The outer loop `for k in range(2, max_k + 1)` with its
`if best_combo is not None: break`; `fuel` counts the remaining values of
`k`. -/
def comboLoop (guests : Int) (anns : List Annot) :
    Nat → Nat → Option BestCombo → Except Unit (Option BestCombo)
  | 0, _, best => .ok best
  | fuel + 1, k, best => do
    let best' ← (combosL k anns).foldlM (comboStep guests k) best
    if best'.isSome then .ok best'
    else comboLoop guests anns fuel (k + 1) best'

/-- The key `(-a["cap"], a["price"])` ordering of the greedy fallback's
`sorted(...)`: strict comparison of one key pair against another
(int first components always compare; prices compare only on ties). -/
def sortKeyLt (a b : Annot) : Except Unit Bool :=
  if a.cap = b.cap then pyLt a.price b.price
  else .ok (decide (b.cap < a.cap))

/-- Stable insertion for the model of Python's stable `sorted`: place `x`
before the first element that is not strictly below it. -/
def insertSorted (x : Annot) : List Annot → Except Unit (List Annot)
  | [] => .ok [x]
  | y :: ys => do
    let yLtX ← sortKeyLt y x
    if yLtX then do
      let rest ← insertSorted x ys
      pure (y :: rest)
    else pure (x :: y :: ys)

/-- Model of `sorted(annotated, key=lambda a: (-a["cap"], a["price"]))`:
a stable sort (Python's sort is stable; any stable sort of the same
total preorder yields the same list). -/
def sortedByKey : List Annot → Except Unit (List Annot)
  | [] => .ok []
  | x :: xs => do
    let rest ← sortedByKey xs
    insertSorted x rest

/-- The greedy fallback loop: accept rooms in sorted order until the
accumulated capacity meets the demand; returns the accumulated total and
the picked ids. -/
def greedyLoop (guests : Int) : List Annot → Int → List Val → Except Unit (Int × List Val)
  | [], total, picked => .ok (total, picked)
  | a :: rest, total, picked =>
    if guests ≤ total then .ok (total, picked)
    else do
      let pid ← dictGetItem a.room "_id"
      greedyLoop guests rest (total + a.cap) (picked ++ [pid])

/-- `allocate_rooms(candidates, guests, allow_extra_beds, preferred_room_types, max_k)`
from routes/api_compat.py. -/
def allocate_rooms (candidates : List PyDict) (guests : Int) (allow_extra_beds : Bool)
    (preferred_room_types : Option (List String)) (max_k : Nat) : Except Unit (List Val) :=
  if guests ≤ 0 then .ok []
  else do
    let filtered ← filterPreferred candidates preferred_room_types
    let anns ← annotate allow_extra_beds filtered
    let singles := anns.filter (fun a => guests ≤ a.cap)
    match singles with
    | pick0 :: more => do
        let pick ← pyMinBy (·.price) pick0 more
        let pid ← dictGetItem pick.room "_id"
        pure [pid]
    | [] => do
        let mk := min max_k anns.length
        let best ← comboLoop guests anns (mk - 1) 2 none
        match best with
        | some b => b.combo.mapM (fun c => dictGetItem c.room "_id")
        | none => do
            let sorted ← sortedByKey anns
            let (total, picked) ← greedyLoop guests sorted 0 []
            pure (if total < guests then [] else picked)

/-! ## Dates and datetimes

A `datetime.date` is modelled as its proleptic-Gregorian day number (an
`Int`), so that `timedelta(days=1)` is `+ 1` and date comparison is `Int`
comparison.  A `datetime.datetime` is a day number plus the seconds within
the day, ordered lexicographically. -/

/-- Day number of a civil date (days-from-civil algorithm; day 0 is
1970-01-01). -/
def mkDate (y m d : Int) : Int :=
  let y' := if m ≤ 2 then y - 1 else y
  let era := (if 0 ≤ y' then y' else y' - 399) / 400
  let yoe := y' - era * 400
  let mp := (m + 9) % 12
  let doy := (153 * mp + 2) / 5 + d - 1
  let doe := yoe * 365 + yoe / 4 - yoe / 100 + doy
  era * 146097 + doe - 719468

/-- A `datetime.datetime`: date component and seconds within the day. -/
structure DateTime where
  day : Int
  sec : Int
deriving DecidableEq

/-- `datetime` strict comparison (lexicographic). -/
def dtLt (a b : DateTime) : Bool :=
  a.day < b.day || (a.day = b.day && a.sec < b.sec)

/-- The nights `[check_in.date(), check_out.date())` occupied by a stay:
`d = start; while d < end: append(d); d += timedelta(days=1)`
(routes/bookings.py lines 115-123). -/
def nightsList (s e : Int) : List Int :=
  (List.range (e - s).toNat).map (fun (i : Nat) => s + (i : Int))

/-- Days in a Gregorian month (for the `%Y-%m-%d` parser). -/
def daysInMonth (y m : Nat) : Nat :=
  if m = 2 then
    if y % 4 = 0 && (y % 100 ≠ 0 || y % 400 = 0) then 29 else 28
  else if m = 4 || m = 6 || m = 9 || m = 11 then 30
  else 31

/-- `datetime.strptime(s, "%Y-%m-%d")`: digits-dash-digits-dash-digits with
a valid month and day; result is that date at midnight. -/
def parseYmd (s : String) : Except Unit DateTime :=
  match s.data.splitOn '-' with
  | [ys, ms, ds] =>
    if isDigitL ys && isDigitL ms && isDigitL ds
        && ys.length ≤ 4 && ms.length ≤ 2 && ds.length ≤ 2 then
      let y := digitsToNatL ys
      let m := digitsToNatL ms
      let d := digitsToNatL ds
      if 1 ≤ m && m ≤ 12 && 1 ≤ d && d ≤ daysInMonth y m then
        .ok ⟨mkDate y m d, 0⟩
      else .error ()
    else .error ()
  | _ => .error ()

/-! ## Documents and database state -/

/-- An HTTP error response (`HTTPException(status_code, detail)`). -/
structure HTTPError where
  status : Nat
  detail : String
deriving DecidableEq

/-- A per-night occupancy document (routes/bookings.py lines 139-145):
`{"accommodation_id": ..., "date": night, "booking_id": ...}`. -/
structure OccDoc where
  accommodation_id : Val
  date : Int
  booking_id : Nat
deriving DecidableEq

/-- A booking document, restricted to the fields the embedded handlers
read or write.  `_id`s are modelled as `Nat`s assigned at insert. -/
structure BookingDoc where
  id : Nat
  accommodation_id : Val := VNone
  status : String := "pending"
  check_in : DateTime
  check_out : DateTime
  allocated_cottages : List Val := []
deriving DecidableEq

/-- The collections the embedded handlers touch. -/
structure DBState where
  bookings : List BookingDoc
  occupancies : List OccDoc
  rooms : List PyDict
  accommodations : List PyDict
deriving DecidableEq

/-- Is some occupancy record present for this (resource, night)? -/
def occupiedIn (occ : List OccDoc) (acc : Val) (d : Int) : Bool :=
  occ.any (fun o => o.accommodation_id = acc && o.date = d)

/-- Modelled from the spec: the storage layer enforces a uniqueness
constraint on (resource, night) occupancy pairs (§3 Occupancy) — the index
creation lives in database setup code that is not among the sources.
`insert_many(docs, ordered=True)` inserts in order and stops at the first
duplicate-key violation, leaving the documents inserted before it in
place. -/
def orderedInsertMany (existing : List OccDoc) : List OccDoc → List OccDoc × Bool
  | [] => (existing, true)
  | d :: rest =>
    if occupiedIn existing d.accommodation_id d.date then (existing, false)
    else orderedInsertMany (existing ++ [d]) rest

/-- The occupancy documents for a booking's nights. -/
def occDocsFor (acc : Val) (bid : Nat) (nights : List Int) : List OccDoc :=
  nights.map (fun d => ⟨acc, d, bid⟩)

/-- The transactional reservation block of `create_booking`
(routes/bookings.py lines 131-150): insert the booking and its occupancy
documents inside one transaction; a `DuplicateKeyError` aborts the whole
transaction (restoring the pre-transaction state) and surfaces HTTP 409. -/
def reserveTx (st : DBState) (bk : BookingDoc) (nights : List Int) :
    DBState × Except HTTPError Unit :=
  match orderedInsertMany st.occupancies (occDocsFor bk.accommodation_id bk.id nights) with
  | (occ2, true) =>
      ({ st with bookings := st.bookings ++ [bk], occupancies := occ2 }, .ok ())
  | (_, false) =>
      (st, .error ⟨409, "Accommodation already booked for the selected dates"⟩)

/-- The inline overlap re-check of the lock-fallback path
(routes/bookings.py lines 167-172): any non-cancelled booking for the same
accommodation with `check_in < new.check_out` and
`check_out > new.check_in`. -/
def overlapExists (bks : List BookingDoc) (acc : Val) (ci co : DateTime) : Bool :=
  bks.any (fun b =>
    b.accommodation_id = acc && b.status ≠ "cancelled"
      && dtLt b.check_in co && dtLt ci b.check_out)

/-- The lock-fallback reservation body of `create_booking`
(routes/bookings.py lines 166-194), entered with the distributed lock
held: re-check overlap inline; insert the booking; insert the occupancy
documents with `ordered=True`; on a duplicate-key violation delete the
just-inserted booking (`delete_one`) and surface HTTP 409. -/
def lockedReserve (st : DBState) (bk : BookingDoc) (nights : List Int) :
    DBState × Except HTTPError Unit :=
  if overlapExists st.bookings bk.accommodation_id bk.check_in bk.check_out then
    (st, .error ⟨409, "Accommodation already booked for the selected dates"⟩)
  else
    match orderedInsertMany st.occupancies (occDocsFor bk.accommodation_id bk.id nights) with
    | (occ2, true) =>
        ({ st with bookings := st.bookings ++ [bk], occupancies := occ2 }, .ok ())
    | (occ2, false) =>
        ({ st with bookings := (st.bookings ++ [bk]).eraseP (fun b => b.id == bk.id),
                   occupancies := occ2 },
         .error ⟨409, "Accommodation already booked for the selected dates"⟩)

/-- Python `str(v)` for the value kinds the embedded code stringifies. -/
def pyStr : Val → String
  | VOid s => s
  | VStr s => s
  | VInt n => toString n
  | VBool b => if b then "True" else "False"
  | VNone => "None"
  | VList _ => ""
  | VDict _ => ""

/-- A character allowed in an ObjectId hex string. -/
def isHexChar (c : Char) : Bool :=
  c.isDigit || ('a' ≤ c && c ≤ 'f') || ('A' ≤ c && c ≤ 'F')

/-- A string `bson.ObjectId` accepts: exactly 24 hex characters. -/
def validOidStr (s : String) : Bool :=
  s.data.length = 24 && s.data.all isHexChar

/-- `ObjectId(v)`: identity on ObjectIds, parses valid 24-hex strings,
raises otherwise. -/
def oidParse : Val → Except Unit Val
  | VOid s => .ok (VOid s)
  | VStr s => if validOidStr s then .ok (VOid s) else .error ()
  | _ => .error ()

/-! ## `create_booking` (routes/bookings.py lines 38-206) -/

/-- The validated request body of the `/bookings/` POST route.
Modelled from the spec: the `Booking` pydantic model lives in `models.py`,
which is not among the sources; its fields used by the handler are typed
per §3 and §6 of the specification (optional integer guest counts, datetime
check-in/check-out, status defaulting to `pending`). -/
structure BookingInput where
  accommodation_id : Val
  check_in : DateTime
  check_out : DateTime
  status : String := "pending"
  guests : Option Int := none
  adults : Option Int := none
  children : Option Int := none
  allow_extra_beds : Bool := false
  extra_beds_qty : Option Int := none
deriving DecidableEq

/-- Lines 62-70: requested guest count — `guests` if given, else
`adults + children` when positive, else no capacity check. -/
def guestsReq (bk : BookingInput) : Option Int :=
  match bk.guests with
  | some g => some g
  | none =>
      let a := bk.adults.getD 0
      let c := bk.children.getD 0
      if 0 < a + c then some (a + c) else none

/-- `sum(int(r.get("capacity") or r.get("sleeps") or 0) for r in rooms)`. -/
def sumRoomCaps (rooms : List PyDict) : Except Unit Int :=
  rooms.foldlM (fun acc r => do
    let v ← pyIntCast (pyOr (dictGet r "capacity") (pyOr (dictGet r "sleeps") (VInt 0)))
    pure (acc + v)) 0

/-- `sum(int(r.get("extra_beds") or r.get("extra_bedding") or 0) for r in rooms)`. -/
def sumRoomExtras (rooms : List PyDict) : Except Unit Int :=
  rooms.foldlM (fun acc r => do
    let v ← pyIntCast (pyOr (dictGet r "extra_beds") (pyOr (dictGet r "extra_bedding") (VInt 0)))
    pure (acc + v)) 0

/-- The tail of the capacity-validation block (lines 103-108): apply the
requested extra beds and compare.  `extra_available` is `none` when the
Python variable was never assigned (accommodation found but with no
attached rooms) — using it then raises `NameError`, swallowed by the outer
`except`. -/
def capacityVerdict (bk : BookingInput) (g : Int) (total_cap : Int)
    (extra_available : Option Int) : Except Unit (Option HTTPError) := do
  let cap ←
    if bk.allow_extra_beds then do
      let requested := bk.extra_beds_qty.getD 0
      match extra_available with
      | some ea => pure (total_cap + min ea requested)
      | none => Except.error ()
    else pure total_cap
  if cap < g then
    pure (some ⟨400, "Selected accommodation does not accommodate "
      ++ toString g ++ " guests; capacity is " ++ toString cap⟩)
  else pure none

/-- The capacity-validation block of `create_booking` (lines 71-108),
without its outer `try/except`: look the accommodation up as a room, then
as an accommodation document, compute its capacity and available extra
beds, and flag HTTP 400 when the requested guest count exceeds it. -/
def capacityCheckCore (st : DBState) (bk : BookingInput) (g : Int) :
    Except Unit (Option HTTPError) :=
  match st.rooms.find? (fun r => dictGet r "_id" = bk.accommodation_id) with
  | some r => do
      let tc ← pyIntCast (pyOr (dictGet r "capacity") (pyOr (dictGet r "sleeps") (VInt 0)))
      let eb := extraBedVal r
      let ea ← if eb = VNone then pure (0 : Int) else pyIntCast eb
      capacityVerdict bk g tc (some ea)
  | none =>
    let acc :=
      match oidParse bk.accommodation_id with
      | .ok oid => st.accommodations.find? (fun a => dictGet a "_id" = oid)
      | .error _ => st.accommodations.find? (fun a => dictGet a "_id" = bk.accommodation_id)
    match acc with
    | some a => do
        let tc0 ← pyIntCast (pyOr (dictGet a "capacity") (pyOr (dictGet a "sleeps") (VInt 0)))
        let accRooms := st.rooms.filter (fun r =>
          dictGet r "accommodation_id" = dictGet a "_id"
            || dictGet r "accommodation_id" = VStr (pyStr (dictGet a "_id")))
        if accRooms.isEmpty then capacityVerdict bk g tc0 none
        else
          match sumRoomCaps accRooms, sumRoomExtras accRooms with
          | .ok tc1, .ok ea1 => capacityVerdict bk g tc1 (some ea1)
          | .ok tc1, .error _ => capacityVerdict bk g tc1 (some 0)
          | .error _, _ => capacityVerdict bk g tc0 (some 0)
    | none => capacityVerdict bk g 0 (some 0)

/-- The capacity-validation block with its `try/except` wrapper:
`HTTPException`s propagate, any other exception is swallowed
(`capacity check failure shouldn't block booking creation`). -/
def capacityCheck (st : DBState) (bk : BookingInput) : Except HTTPError Unit :=
  match guestsReq bk with
  | none => .ok ()
  | some g =>
    match capacityCheckCore st bk g with
    | .ok (some e) => .error e
    | .ok none => .ok ()
    | .error _ => .ok ()

/-- Which reservation path `create_booking` takes: the transactional path
(Mongo client with sessions, transaction usable), or the distributed-lock
fallback with the given lock-acquisition outcome (the acquire itself is
implemented in `lib/locks.py`, outside the embedded sources; its success
is a parameter here). -/
inductive ReserveMode where
  | txn : ReserveMode
  | lockFallback : Bool → ReserveMode
deriving DecidableEq

/-- `create_booking` from routes/bookings.py.  The auth-token attachment
(lines 44-56) only annotates the stored document inside a broad
`try/except` and is outcome-irrelevant; it is not modelled.  `newId` is
the `_id` Mongo assigns to the inserted booking. -/
def bookings_create (st : DBState) (bk : BookingInput) (newId : Nat) (mode : ReserveMode) :
    DBState × Except HTTPError BookingDoc :=
  if ¬ dtLt bk.check_in bk.check_out then
    (st, .error ⟨400, "check_in must be before check_out"⟩)
  else
    match capacityCheck st bk with
    | .error e => (st, .error e)
    | .ok () =>
      let nights := nightsList bk.check_in.day bk.check_out.day
      let doc : BookingDoc :=
        { id := newId, accommodation_id := bk.accommodation_id, status := bk.status,
          check_in := bk.check_in, check_out := bk.check_out }
      match mode with
      | .txn =>
          match reserveTx st doc nights with
          | (st2, .ok ()) => (st2, .ok doc)
          | (st2, .error e) => (st2, .error e)
      | .lockFallback false => (st, .error ⟨409, "Accommodation is busy; try again"⟩)
      | .lockFallback true =>
          match lockedReserve st doc nights with
          | (st2, .ok ()) => (st2, .ok doc)
          | (st2, .error e) => (st2, .error e)

/-! ## `update_booking` (routes/bookings.py lines 209-223) -/

/-- The `$set` payload of a booking update (`booking.dict()`):
every model field is overwritten, including the dates. -/
structure BookingUpdate where
  accommodation_id : Val
  status : String
  check_in : DateTime
  check_out : DateTime
deriving DecidableEq

/-- Apply the `$set` document to one booking document. -/
def applySet (b : BookingDoc) (u : BookingUpdate) : BookingDoc :=
  { b with accommodation_id := u.accommodation_id, status := u.status,
           check_in := u.check_in, check_out := u.check_out }

/-- `update_one`: update the first document matching the filter. -/
def updateFirst (p : BookingDoc → Bool) (f : BookingDoc → BookingDoc) :
    List BookingDoc → List BookingDoc
  | [] => []
  | b :: rest => if p b then f b :: rest else b :: updateFirst p f rest

/-- `update_booking` from routes/bookings.py: parse the id (`none` models
a string `ObjectId` rejects → HTTP 400), `update_one` on `bookings` with
`$set`, 404 when nothing matched, then return the re-fetched document. -/
def update_booking (st : DBState) (bid : Option Nat) (u : BookingUpdate) :
    DBState × Except HTTPError BookingDoc :=
  match bid with
  | none => (st, .error ⟨400, "Invalid booking id"⟩)
  | some i =>
    if st.bookings.any (fun b => b.id = i) then
      let bks2 := updateFirst (fun b => b.id = i) (fun b => applySet b u) st.bookings
      match bks2.find? (fun b => b.id = i) with
      | some b => ({ st with bookings := bks2 }, .ok b)
      | none => ({ st with bookings := bks2 }, .error ⟨404, "Booking not found"⟩)
    else (st, .error ⟨404, "Booking not found"⟩)

/-! ## `create_booking` (routes/api_compat.py, POST /api/bookings) -/

/-- Zero-padded decimal rendering. -/
def padNum (width n : Nat) : String :=
  let s := toString n
  String.mk (List.replicate (width - s.length) '0') ++ s

/-- `gen_reference()` (routes/api_compat.py lines 42-43):
`"RB-" + utcnow().strftime("%Y%m%d%H%M%S") + "-" + 4 random digits`.
The clock reading and the random digits are parameters. -/
def gen_reference (y mo d h mi s : Nat) (rand4 : Nat) : String :=
  "RB-" ++ padNum 4 y ++ padNum 2 mo ++ padNum 2 d
    ++ padNum 2 h ++ padNum 2 mi ++ padNum 2 s ++ "-" ++ padNum 4 rand4

/-- The request body of POST /api/bookings (`BookingRequest` pydantic
model, routes/api_compat.py lines 22-40). -/
structure ApiBookingRequest where
  guest_name : String
  guest_email : String
  guests : Option Int := none
  adults : Option Int := none
  children : Option Int := none
  check_in : String
  check_out : String
  guest_phone : Option String := none
  allow_extra_beds : Bool := false
  preferred_room_types : Option (List String) := none
  selected_cottages : Option (List String) := none
  selected_programs : Option (List String) := none
  extra_beds_qty : Option Int := some 0
deriving DecidableEq

/-- The explicitly-selected-cottages loop (routes/api_compat.py lines
803-820): each id must parse as an ObjectId, resolve to a room, and have
no overlapping confirmed/pending booking.  After the loop the handler's
body ends: the allocation / document construction / insert / response
code that follows in the file (from `if not allocated:` onward) is
unreachable — it sits inside the later `debug_counts` handler after its
`return`/`raise` — so the route falls off the end and returns `None`. -/
def checkSelected (st : DBState) (s e : DateTime) :
    List String → Except HTTPError (Option PyDict)
  | [] => .ok none
  | sid :: rest =>
    match oidParse (VStr sid) with
    | .error _ => .error ⟨400, "Invalid cottage id " ++ sid⟩
    | .ok oid =>
      match st.rooms.find? (fun r => dictGet r "_id" = oid) with
      | none => .error ⟨400, "Cottage " ++ sid ++ " not found"⟩
      | some _ =>
        if st.bookings.any (fun b =>
            b.allocated_cottages.contains oid
              && (b.status = "confirmed" || b.status = "pending")
              && dtLt b.check_in e && dtLt s b.check_out) then
          .error ⟨400, "Cottage " ++ sid ++ " not available for selected dates"⟩
        else checkSelected st s e rest

/-- `create_booking` from routes/api_compat.py (POST /api/bookings):
validate dates, guest count and email, read the busy-cottage ids
(side-effect free), then run the explicit-selection loop.  The handler
body ends there (see `checkSelected`), so every passing request yields
`.ok none` — HTTP 201 with a `null` body — and no booking is created. -/
def api_create_booking (st : DBState) (p : ApiBookingRequest) :
    Except HTTPError (Option PyDict) :=
  match parseYmd p.check_in, parseYmd p.check_out with
  | .ok s, .ok e =>
    if ¬ dtLt s e then .error ⟨400, "check_out must be after check_in"⟩
    else
      match p.guests with
      | none => .error ⟨400, "Invalid guests count"⟩
      | some g =>
        if g ≤ 0 then .error ⟨400, "Invalid guests count"⟩
        else if p.guest_email = "" then .error ⟨400, "Invalid guest_email"⟩
        else checkSelected st s e (p.selected_cottages.getD [])
  | _, _ => .error ⟨400, "Invalid dates; use YYYY-MM-DD"⟩

/-! ## Derived notions used by the statements -/

/-- The nights a booking occupies, from its stored datetimes. -/
def bookNights (bk : BookingDoc) : List Int :=
  nightsList bk.check_in.day bk.check_out.day

/-- A serialized schedule of transactional reservation attempts: the
store's transactions for one (resource, night) key conflict-serialize (the
unique index is the serialization point, §5 of the spec), so a race of N
`create_booking` calls on the transactional path executes as the N atomic
commits in some order.  Runs each attempt's transaction in list order. -/
def runReservations (st : DBState) : List BookingDoc → DBState × List (Except HTTPError Unit)
  | [] => (st, [])
  | bk :: rest =>
    ((runReservations (reserveTx st bk (bookNights bk)).1 rest).1,
     (reserveTx st bk (bookNights bk)).2
       :: (runReservations (reserveTx st bk (bookNights bk)).1 rest).2)

/-- Number of occupancy records for one (resource, night). -/
def countOcc (occ : List OccDoc) (acc : Val) (d : Int) : Nat :=
  (occ.filter (fun o => o.accommodation_id = acc && o.date = d)).length

/-- The `bedConfig` field, as the capacity fallback uses it
(`room.get("bedConfig") or []`), is a list whose entries are all dicts. -/
def WellFormedBedConfig (room : PyDict) : Prop :=
  ∃ l : List Val, pyOr (dictGet room "bedConfig") (VList []) = VList l ∧
    ∀ b ∈ l, ∃ kvs : PyDict, b = VDict kvs

/-- Every parseable numeric field of the room, and every parseable
bed-configuration count, is nonnegative. -/
def NonnegNumericFields (room : PyDict) : Prop :=
  (∀ kv ∈ room, ∀ n : Int, pyIntCast kv.2 = .ok n → 0 ≤ n) ∧
  (∀ l : List Val, pyOr (dictGet room "bedConfig") (VList []) = VList l →
    ∀ kvs : PyDict, VDict kvs ∈ l →
      ∀ n : Int, pyIntCast (pyOr (dictGet kvs "count") (VInt 1)) = .ok n → 0 ≤ n)

/-! ## Concrete fixtures for the witnesses and counterexamples -/

/-- Room A of the spec's allocation examples (§8): capacity 2, price 10. -/
def roomA : PyDict := [("_id", VStr "A"), ("capacity", VInt 2), ("price_per_night", VInt 10)]

/-- Room B of the spec's allocation examples (§8): capacity 3, price 8. -/
def roomB : PyDict := [("_id", VStr "B"), ("capacity", VInt 3), ("price_per_night", VInt 8)]

/-- Room C of the spec's allocation examples (§8): capacity 5, price 20. -/
def roomC : PyDict := [("_id", VStr "C"), ("capacity", VInt 5), ("price_per_night", VInt 20)]

/-- A room document that answers capacity 1 for price 0. -/
def roomX : PyDict := [("_id", VStr "X"), ("capacity", VInt 1), ("price", VInt 0)]

/-- An empty database. -/
def emptyDB : DBState := { bookings := [], occupancies := [], rooms := [], accommodations := [] }

/-- A database whose `occupancies` hold night 1 of accommodation "A" for
booking 99. -/
def dbNight1Taken : DBState :=
  { bookings := [], occupancies := [⟨VStr "A", 1, 99⟩], rooms := [], accommodations := [] }

/-- A booking document for accommodation "A", nights 0 and 1. -/
def bkNights01 : BookingDoc :=
  { id := 7, accommodation_id := VStr "A", check_in := ⟨0, 0⟩, check_out := ⟨2, 0⟩ }

/-- The stay of the spec's date-validation example: 2025-06-10 to
2025-06-12 at accommodation "A", no guest counts given. -/
def bkJune : BookingInput :=
  { accommodation_id := VStr "A",
    check_in := ⟨mkDate 2025 6 10, 0⟩, check_out := ⟨mkDate 2025 6 12, 0⟩ }

/-- The booking document `bkJune` commits as, with `_id` 1. -/
def bkJuneDoc : BookingDoc :=
  { id := 1, accommodation_id := VStr "A",
    check_in := ⟨mkDate 2025 6 10, 0⟩, check_out := ⟨mkDate 2025 6 12, 0⟩ }

/-- Two racing transactional attempts on accommodation "R": nights [0,2)
and [1,3). -/
def raceBk1 : BookingDoc :=
  { id := 1, accommodation_id := VStr "R", check_in := ⟨0, 0⟩, check_out := ⟨2, 0⟩ }

/-- Second racing attempt (overlapping range). -/
def raceBk2 : BookingDoc :=
  { id := 2, accommodation_id := VStr "R", check_in := ⟨1, 0⟩, check_out := ⟨3, 0⟩ }

/-- A database holding one available room, for exercising the
POST /api/bookings handler. -/
def dbOneRoom : DBState :=
  { bookings := [], occupancies := [],
    rooms := [[("_id", VOid "5f1a2b3c4d5e6f7a8b9c0d1e"), ("capacity", VInt 4),
               ("price_per_night", VInt 100), ("available", VBool true)]],
    accommodations := [] }

/-- A valid POST /api/bookings request: well-formed dates, positive guest
count, nonempty email, no explicit cottage selection. -/
def validApiReq : ApiBookingRequest :=
  { guest_name := "Guest", guest_email := "guest@example.com", guests := some 2,
    check_in := "2025-06-10", check_out := "2025-06-12" }

/-- The annotation list `allocate_rooms` builds for rooms A, B, C with
extra beds disallowed. -/
def annsABC : List Annot :=
  [⟨roomA, 2, VInt 10⟩, ⟨roomB, 3, VInt 8⟩, ⟨roomC, 5, VInt 20⟩]

/-! # Supporting lemmas -/

theorem occupiedIn_append (xs ys : List OccDoc) (acc : Val) (d : Int) :
    occupiedIn (xs ++ ys) acc d = (occupiedIn xs acc d || occupiedIn ys acc d) := by
  simp [occupiedIn, List.any_append]

theorem takeWhile_congr {α : Type} {p q : α → Bool} :
    ∀ {l : List α}, (∀ x ∈ l, p x = q x) → l.takeWhile p = l.takeWhile q := by
  intro l
  induction l with
  | nil => intro _; rfl
  | cons x xs ih =>
    intro h
    have hx := h x (by simp)
    simp only [List.takeWhile_cons, hx]
    cases hq : q x with
    | true => simp [ih (fun y hy => h y (by simp [hy]))]
    | false => simp

theorem mem_nightsList (s e d : Int) : d ∈ nightsList s e ↔ s ≤ d ∧ d < e := by
  unfold nightsList
  rw [List.mem_map]
  constructor
  · rintro ⟨i, hi, rfl⟩
    rw [List.mem_range] at hi
    omega
  · rintro ⟨h1, h2⟩
    refine ⟨(d - s).toNat, ?_, ?_⟩
    · rw [List.mem_range]
      omega
    · omega

theorem nightsList_nodup (s e : Int) : (nightsList s e).Nodup := by
  unfold nightsList
  apply List.Nodup.map
  · intro a b hab
    dsimp only at hab
    omega
  · exact List.nodup_range _

theorem occDocsFor_cons (acc : Val) (bid : Nat) (d : Int) (rest : List Int) :
    occDocsFor acc bid (d :: rest) = ⟨acc, d, bid⟩ :: occDocsFor acc bid rest := rfl

theorem occDocsFor_nil (acc : Val) (bid : Nat) : occDocsFor acc bid [] = [] := rfl

theorem orderedInsertMany_occDocs (acc : Val) (bid : Nat) (existing : List OccDoc)
    (ds : List Int) (hnodup : ds.Nodup) :
    orderedInsertMany existing (occDocsFor acc bid ds)
      = if ∀ d ∈ ds, occupiedIn existing acc d = false
        then (existing ++ occDocsFor acc bid ds, true)
        else (existing ++ occDocsFor acc bid
                (ds.takeWhile (fun d => !occupiedIn existing acc d)), false) := by
  induction ds generalizing existing with
  | nil => simp [occDocsFor, orderedInsertMany]
  | cons d rest ih =>
    have hd : d ∉ rest := (List.nodup_cons.mp hnodup).1
    have hrest : rest.Nodup := (List.nodup_cons.mp hnodup).2
    rw [occDocsFor_cons]
    simp only [orderedInsertMany]
    cases hocc : occupiedIn existing acc d with
    | true =>
        rw [if_pos rfl]
        have hnall : ¬ ∀ x ∈ d :: rest, occupiedIn existing acc x = false := by
          intro hall
          have := hall d (by simp)
          rw [hocc] at this
          exact Bool.noConfusion this
        rw [if_neg hnall]
        simp [List.takeWhile_cons, hocc, occDocsFor_nil]
    | false =>
        rw [if_neg Bool.false_ne_true]
        have hgrow : ∀ x ∈ rest,
            occupiedIn (existing ++ [⟨acc, d, bid⟩]) acc x = occupiedIn existing acc x := by
          intro x hx
          rw [occupiedIn_append]
          have hone : occupiedIn [OccDoc.mk acc d bid] acc x = false := by
            simp only [occupiedIn, List.any_cons, List.any_nil, Bool.or_false]
            simp only [Bool.and_eq_false_iff, decide_eq_false_iff_not]
            right
            intro he
            exact hd (he ▸ hx)
          rw [hone, Bool.or_false]
        rw [ih (existing ++ [OccDoc.mk acc d bid]) hrest]
        by_cases hall : ∀ x ∈ rest, occupiedIn existing acc x = false
        · have hall' : ∀ x ∈ rest, occupiedIn (existing ++ [⟨acc, d, bid⟩]) acc x = false :=
            fun x hx => (hgrow x hx).trans (hall x hx)
          have hallc : ∀ x ∈ d :: rest, occupiedIn existing acc x = false := by
            intro x hx
            rcases List.mem_cons.mp hx with h | h
            · exact h ▸ hocc
            · exact hall x h
          rw [if_pos hall', if_pos hallc]
          simp [List.append_assoc]
        · have hall' : ¬ ∀ x ∈ rest, occupiedIn (existing ++ [⟨acc, d, bid⟩]) acc x = false := by
            intro hc
            exact hall (fun x hx => (hgrow x hx).symm.trans (hc x hx))
          have hallc : ¬ ∀ x ∈ d :: rest, occupiedIn existing acc x = false := by
            intro hc
            exact hall (fun x hx => hc x (by simp [hx]))
          rw [if_neg hall', if_neg hallc]
          have htw : rest.takeWhile (fun x => !occupiedIn (existing ++ [⟨acc, d, bid⟩]) acc x)
              = rest.takeWhile (fun x => !occupiedIn existing acc x) :=
            takeWhile_congr (fun x hx => by rw [hgrow x hx])
          rw [htw]
          have hcons : (d :: rest).takeWhile (fun x => !occupiedIn existing acc x)
              = d :: rest.takeWhile (fun x => !occupiedIn existing acc x) := by
            simp [List.takeWhile_cons, hocc]
          rw [hcons, occDocsFor_cons]
          simp [List.append_assoc]

theorem reserveTx_commit (st : DBState) (bk : BookingDoc) (nights : List Int)
    (hnodup : nights.Nodup)
    (hfree : ∀ d ∈ nights, occupiedIn st.occupancies bk.accommodation_id d = false) :
    reserveTx st bk nights
      = (DBState.mk (st.bookings ++ [bk])
           (st.occupancies ++ occDocsFor bk.accommodation_id bk.id nights)
           st.rooms st.accommodations, .ok ()) := by
  unfold reserveTx
  rw [orderedInsertMany_occDocs _ _ _ _ hnodup, if_pos hfree]

theorem reserveTx_conflict (st : DBState) (bk : BookingDoc) (nights : List Int)
    (hnodup : nights.Nodup)
    (hconf : ∃ d ∈ nights, occupiedIn st.occupancies bk.accommodation_id d = true) :
    reserveTx st bk nights
      = (st, .error ⟨409, "Accommodation already booked for the selected dates"⟩) := by
  unfold reserveTx
  rw [orderedInsertMany_occDocs _ _ _ _ hnodup, if_neg]
  intro hall
  obtain ⟨d, hd, hocc⟩ := hconf
  rw [hall d hd] at hocc
  exact Bool.noConfusion hocc

/-! # The claims -/

/-- C9: updating a booking via `update_booking` writes only to the
bookings collection: in every case — invalid id, missing booking, or a
successful update (even one that changes the check-in/check-out dates) —
the occupancies, rooms and accommodations collections are exactly what
they were before. -/
theorem update_booking_frame (st : DBState) (bid : Option Nat) (u : BookingUpdate) :
    (update_booking st bid u).1.occupancies = st.occupancies
      ∧ (update_booking st bid u).1.rooms = st.rooms
      ∧ (update_booking st bid u).1.accommodations = st.accommodations := by
  cases bid with
  | none => exact ⟨rfl, rfl, rfl⟩
  | some i =>
    unfold update_booking
    dsimp only
    by_cases h : st.bookings.any (fun b => decide (b.id = i)) = true
    · rw [if_pos h]
      cases hf : List.find? (fun b => decide (b.id = i))
          (updateFirst (fun b => decide (b.id = i)) (fun b => applySet b u) st.bookings) <;>
        simp [hf]
    · rw [if_neg h]
      exact ⟨rfl, rfl, rfl⟩

/-- C3 (code bug in the source): a fully valid booking request — parseable
dates in order, positive guest count, nonempty guest email, no explicit
cottage selection — produces HTTP 201 with a `null` body (`.ok none`)
instead of the contractual `{id, reference, status, allocatedRoomIds,
priceBreakdown}` object, and writes nothing: the handler body of
POST /api/bookings ends after the explicit-selection loop because the
allocation/persist/response code after it is unreachable (it sits inside
the later `debug_counts` handler, after that handler's return). -/
theorem api_create_booking_valid_returns_null :
    api_create_booking dbOneRoom validApiReq = .ok none := by decide

/-- C6: `create_booking` rejects every request whose check-out datetime is
not strictly after its check-in datetime with HTTP 400, before touching
any state; and the accepted stay 2025-06-10 → 2025-06-12 commits exactly
two occupancy records, dated 2025-06-10 and 2025-06-11 (half-open night
range). -/
theorem date_validation_and_half_open_nights :
    (∀ (st : DBState) (bk : BookingInput) (newId : Nat) (mode : ReserveMode),
        dtLt bk.check_in bk.check_out = false →
        bookings_create st bk newId mode
          = (st, .error ⟨400, "check_in must be before check_out"⟩)) ∧
    bookings_create emptyDB bkJune 1 .txn
      = (DBState.mk [bkJuneDoc]
           [⟨VStr "A", mkDate 2025 6 10, 1⟩, ⟨VStr "A", mkDate 2025 6 11, 1⟩] [] [],
         .ok bkJuneDoc) := by
  constructor
  · intro st bk newId mode h
    have hc : ¬ dtLt bk.check_in bk.check_out = true := by
      rw [h]
      exact Bool.false_ne_true
    unfold bookings_create
    rw [if_pos hc]
  · decide

/-- C6 witness: the spec's concrete rejected input — equal check-in and
check-out datetimes (2025-06-10 to 2025-06-10) — is refused with
HTTP 400. -/
theorem date_validation_witness :
    bookings_create emptyDB
      { accommodation_id := VStr "A",
        check_in := ⟨mkDate 2025 6 10, 0⟩, check_out := ⟨mkDate 2025 6 10, 0⟩ } 1 .txn
      = (emptyDB, .error ⟨400, "check_in must be before check_out"⟩) :=
  date_validation_and_half_open_nights.1 _ _ _ _ (by decide)

theorem eraseP_append_all_neg {α : Type} (p : α → Bool) (xs : List α) (ys : List α)
    (h : ∀ x ∈ xs, p x = false) : (xs ++ ys).eraseP p = xs ++ ys.eraseP p := by
  induction xs with
  | nil => simp
  | cons x rest ih =>
    have hx := h x (by simp)
    simp only [List.cons_append, List.eraseP_cons, hx, cond_false]
    rw [ih (fun y hy => h y (by simp [hy]))]

/-- C2 counterexample: on the lock-fallback path, with night 1 already
occupied and a two-night stay over nights 0 and 1, the occupancy insert
hits the uniqueness violation on night 1 *after* the night-0 record was
inserted (`ordered=True`); the booking document is deleted and 409 is
returned, but the night-0 occupancy record of the deleted booking 7
remains — an orphaned occupancy record. -/
theorem rollback_leaves_orphan_occupancy :
    (lockedReserve dbNight1Taken bkNights01 (nightsList 0 2)).2
        = .error ⟨409, "Accommodation already booked for the selected dates"⟩
      ∧ (lockedReserve dbNight1Taken bkNights01 (nightsList 0 2)).1.bookings = []
      ∧ OccDoc.mk (VStr "A") 0 7
          ∈ (lockedReserve dbNight1Taken bkNights01 (nightsList 0 2)).1.occupancies := by
  exact ⟨by decide, by decide, by decide⟩

/-- C2 (amended): on the lock-fallback path, when the occupancy insert
fails with a uniqueness violation after the booking document was inserted,
the booking document is deleted and the caller receives HTTP 409 — no
orphaned *booking* remains (the bookings collection is exactly as before)
— but the occupancy records inserted before the first conflicting night
remain in the occupancies collection. -/
theorem lockfallback_rollback (st : DBState) (bk : BookingDoc) (nights : List Int)
    (hnodup : nights.Nodup)
    (hfresh : ∀ b ∈ st.bookings, b.id ≠ bk.id)
    (hnoover : overlapExists st.bookings bk.accommodation_id bk.check_in bk.check_out = false)
    (hconf : ∃ d ∈ nights, occupiedIn st.occupancies bk.accommodation_id d = true) :
    lockedReserve st bk nights
      = (DBState.mk st.bookings
           (st.occupancies ++ occDocsFor bk.accommodation_id bk.id
             (nights.takeWhile (fun d => !occupiedIn st.occupancies bk.accommodation_id d)))
           st.rooms st.accommodations,
         .error ⟨409, "Accommodation already booked for the selected dates"⟩) := by
  unfold lockedReserve
  rw [if_neg (by rw [hnoover]; exact Bool.false_ne_true)]
  rw [orderedInsertMany_occDocs _ _ _ _ hnodup, if_neg]
  · have herase : (st.bookings ++ [bk]).eraseP (fun b => b.id == bk.id) = st.bookings := by
      rw [eraseP_append_all_neg]
      · simp
      · intro x hx
        simp only [beq_eq_false_iff_ne, ne_eq]
        exact hfresh x hx
    rw [herase]
  · intro hall
    obtain ⟨d, hd, hocc⟩ := hconf
    rw [hall d hd] at hocc
    exact Bool.noConfusion hocc

/-- C2 witness: the amended rollback theorem at the concrete two-night
scenario — the booking is gone, 409 is returned, and exactly the night-0
record was left behind. -/
theorem lockfallback_rollback_witness :
    lockedReserve dbNight1Taken bkNights01 (nightsList 0 2)
      = (DBState.mk [] [⟨VStr "A", 1, 99⟩, ⟨VStr "A", 0, 7⟩] [] [],
         .error ⟨409, "Accommodation already booked for the selected dates"⟩) := by
  have h := lockfallback_rollback dbNight1Taken bkNights01 (nightsList 0 2)
    (nightsList_nodup 0 2) (by decide) (by decide) ⟨1, by decide, by decide⟩
  exact h.trans (by decide)

theorem occupiedIn_occDocsFor (acc : Val) (bid : Nat) (ds : List Int) (d : Int) :
    occupiedIn (occDocsFor acc bid ds) acc d = decide (d ∈ ds) := by
  induction ds with
  | nil => simp [occupiedIn, occDocsFor]
  | cons x rest ih =>
    rw [occDocsFor_cons]
    simp only [occupiedIn, List.any_cons] at ih ⊢
    rw [ih]
    simp [List.mem_cons, eq_comm, Bool.or_comm]

theorem countOcc_append (xs ys : List OccDoc) (acc : Val) (d : Int) :
    countOcc (xs ++ ys) acc d = countOcc xs acc d + countOcc ys acc d := by
  simp [countOcc, List.filter_append]

theorem countOcc_eq_zero (occ : List OccDoc) (acc : Val) (d : Int)
    (h : occupiedIn occ acc d = false) : countOcc occ acc d = 0 := by
  simp only [occupiedIn, List.any_eq_false] at h
  simp only [countOcc, List.length_eq_zero, List.filter_eq_nil_iff]
  intro o ho
  exact h o ho

theorem countOcc_occDocsFor (acc : Val) (bid : Nat) (ds : List Int) (hnodup : ds.Nodup)
    (d : Int) :
    countOcc (occDocsFor acc bid ds) acc d = if d ∈ ds then 1 else 0 := by
  induction ds with
  | nil => simp [countOcc, occDocsFor]
  | cons x rest ih =>
    have hx : x ∉ rest := (List.nodup_cons.mp hnodup).1
    have hrest : rest.Nodup := (List.nodup_cons.mp hnodup).2
    rw [occDocsFor_cons]
    simp only [countOcc, List.filter_cons] at ih ⊢
    by_cases hxd : x = d
    · have hdr : d ∉ rest := by
        rw [← hxd]
        exact hx
      rw [if_pos (by simp [hxd])]
      rw [List.length_cons, ih hrest, if_neg hdr, if_pos (by simp [hxd])]
    · rw [if_neg (by simp [hxd])]
      rw [ih hrest]
      by_cases hdr : d ∈ rest
      · rw [if_pos hdr, if_pos (by simp [hdr])]
      · rw [if_neg hdr, if_neg (by simp [hdr, Ne.symm hxd])]

theorem runReservations_all_conflict (st : DBState) (l : List BookingDoc)
    (h : ∀ b ∈ l, ∃ d ∈ bookNights b, occupiedIn st.occupancies b.accommodation_id d = true) :
    runReservations st l
      = (st, l.map (fun _ => .error ⟨409, "Accommodation already booked for the selected dates"⟩)) := by
  induction l with
  | nil => rfl
  | cons b rest ih =>
    unfold runReservations
    rw [reserveTx_conflict st b (bookNights b) (nightsList_nodup _ _) (h b (by simp))]
    rw [ih (fun x hx => h x (by simp [hx]))]
    rfl

/-- C1: two (indeed N) racing booking-creation requests for one
accommodation over pairwise-overlapping date ranges, run as the store
serializes their transactional commits (the uniqueness constraint on
(resource, night) is the serialization point), produce exactly one
committed booking and Conflict (HTTP 409) for every other request; the
final state holds at most one occupancy record per (resource, night) —
exactly one for each night of the winning stay — and the loser's booking
is never written, so nothing is overwritten. -/
theorem no_double_booking (st : DBState) (a : BookingDoc) (rest : List BookingDoc)
    (hvr : ∀ b ∈ a :: rest, b.check_in.day < b.check_out.day)
    (hacc : ∀ b ∈ rest, b.accommodation_id = a.accommodation_id)
    (hover : (a :: rest).Pairwise
      (fun x y => x.check_in.day < y.check_out.day ∧ y.check_in.day < x.check_out.day))
    (hfree : ∀ b ∈ a :: rest, ∀ d ∈ bookNights b,
      occupiedIn st.occupancies b.accommodation_id d = false)
    (huniq : ∀ d, countOcc st.occupancies a.accommodation_id d ≤ 1) :
    (runReservations st (a :: rest)).2
        = .ok () :: rest.map
            (fun _ => .error ⟨409, "Accommodation already booked for the selected dates"⟩)
      ∧ (runReservations st (a :: rest)).1.bookings = st.bookings ++ [a]
      ∧ (runReservations st (a :: rest)).1.occupancies
          = st.occupancies ++ occDocsFor a.accommodation_id a.id (bookNights a)
      ∧ (∀ d, countOcc (runReservations st (a :: rest)).1.occupancies a.accommodation_id d ≤ 1)
      ∧ (∀ d ∈ bookNights a,
          countOcc (runReservations st (a :: rest)).1.occupancies a.accommodation_id d = 1) := by
  have hcommit := reserveTx_commit st a (bookNights a) (nightsList_nodup _ _)
    (hfree a (by simp))
  have hrel : ∀ b ∈ rest,
      a.check_in.day < b.check_out.day ∧ b.check_in.day < a.check_out.day :=
    fun b hb => (List.pairwise_cons.mp hover).1 b hb
  set st1 : DBState := DBState.mk (st.bookings ++ [a])
    (st.occupancies ++ occDocsFor a.accommodation_id a.id (bookNights a))
    st.rooms st.accommodations with hst1
  have hconfs : ∀ b ∈ rest, ∃ d ∈ bookNights b,
      occupiedIn st1.occupancies b.accommodation_id d = true := by
    intro b hb
    refine ⟨max a.check_in.day b.check_in.day, ?_, ?_⟩
    · rw [bookNights, mem_nightsList]
      constructor
      · exact le_max_right _ _
      · exact max_lt (hrel b hb).1 (hvr b (by simp [hb]))
    · rw [hacc b hb, hst1]
      rw [occupiedIn_append]
      have hmem : max a.check_in.day b.check_in.day ∈ bookNights a := by
        rw [bookNights, mem_nightsList]
        constructor
        · exact le_max_left _ _
        · exact max_lt (hvr a (by simp)) (hrel b hb).2
      rw [occupiedIn_occDocsFor]
      simp [hmem]
  have hrun : runReservations st (a :: rest)
      = (st1, .ok () :: rest.map
          (fun _ => .error ⟨409, "Accommodation already booked for the selected dates"⟩)) := by
    unfold runReservations
    rw [hcommit]
    rw [runReservations_all_conflict st1 rest hconfs]
  rw [hrun]
  refine ⟨rfl, rfl, rfl, ?_, ?_⟩
  · intro d
    rw [hst1]
    show countOcc (st.occupancies ++ occDocsFor a.accommodation_id a.id (bookNights a))
      a.accommodation_id d ≤ 1
    rw [countOcc_append, countOcc_occDocsFor a.accommodation_id a.id (bookNights a)
      (show (bookNights a).Nodup from nightsList_nodup _ _) d]
    by_cases hd : d ∈ bookNights a
    · rw [if_pos hd]
      have h0 : countOcc st.occupancies a.accommodation_id d = 0 :=
        countOcc_eq_zero _ _ _ (hfree a (by simp) d hd)
      omega
    · rw [if_neg hd]
      have := huniq d
      omega
  · intro d hd
    rw [hst1]
    show countOcc (st.occupancies ++ occDocsFor a.accommodation_id a.id (bookNights a))
      a.accommodation_id d = 1
    rw [countOcc_append, countOcc_occDocsFor a.accommodation_id a.id (bookNights a)
      (show (bookNights a).Nodup from nightsList_nodup _ _) d, if_pos hd]
    have h0 : countOcc st.occupancies a.accommodation_id d = 0 :=
      countOcc_eq_zero _ _ _ (hfree a (by simp) d hd)
    omega

/-- C1 witness: two concrete racing attempts on accommodation "R" —
nights [0,2) and [1,3) — starting from an empty store: the first commit
wins, the second receives HTTP 409. -/
theorem no_double_booking_witness :
    (runReservations emptyDB [raceBk1, raceBk2]).2
      = [.ok (), .error ⟨409, "Accommodation already booked for the selected dates"⟩] := by
  have h := no_double_booking emptyDB raceBk1 [raceBk2]
    (by decide) (by decide) (by decide) (by decide) (fun d => Nat.zero_le 1)
  exact h.1.trans (by decide)

theorem exceptBind_ok {ε α β : Type} (a : α) (f : α → Except ε β) :
    (Except.ok a >>= f) = f a := rfl

theorem exceptBind_err {ε α β : Type} (e : ε) (f : α → Except ε β) :
    ((Except.error e : Except ε α) >>= f) = Except.error e := rfl

theorem exceptPure_bind {ε α β : Type} (a : α) (f : α → Except ε β) :
    ((pure a : Except ε α) >>= f) = f a := rfl

theorem dictGet_cases (room : PyDict) (k : String) :
    dictGet room k = VNone ∨ (k, dictGet room k) ∈ room := by
  unfold dictGet
  cases h : room.find? (fun kv => kv.1 = k) with
  | none => exact Or.inl rfl
  | some kv =>
    right
    have hm := List.mem_of_find?_eq_some h
    have hp := List.find?_some h
    simp only [decide_eq_true_eq] at hp
    have hkv : (k, kv.2) = kv := by
      cases kv with
      | mk a b =>
        simp only at hp
        rw [hp]
    rw [hkv]
    exact hm

theorem nonneg_dictGet (room : PyDict)
    (h : ∀ kv ∈ room, ∀ n : Int, pyIntCast kv.2 = .ok n → 0 ≤ n)
    (k : String) : ∀ n : Int, pyIntCast (dictGet room k) = .ok n → 0 ≤ n := by
  intro n hn
  rcases dictGet_cases room k with hc | hc
  · rw [hc] at hn
    exact absurd hn (by simp [pyIntCast])
  · exact h _ hc n hn

theorem nonneg_or_zero (v : Val) (h : ∀ n : Int, pyIntCast v = .ok n → 0 ≤ n) :
    ∀ n : Int, pyIntCast (pyOr v (VInt 0)) = .ok n → 0 ≤ n := by
  intro n hn
  unfold pyOr at hn
  split at hn
  · exact h n hn
  · simp only [pyIntCast, Except.ok.injEq] at hn
    omega

theorem nonneg_extraBedVal (room : PyDict)
    (h : ∀ kv ∈ room, ∀ n : Int, pyIntCast kv.2 = .ok n → 0 ≤ n) :
    ∀ n : Int, pyIntCast (extraBedVal room) = .ok n → 0 ≤ n := by
  unfold extraBedVal
  split
  · exact nonneg_dictGet room h "extra_beds"
  · exact nonneg_dictGet room h "extra_bedding"

theorem numVal_nonneg_of_isInstInt (v : Val)
    (hv : ∀ n : Int, pyIntCast v = .ok n → 0 ≤ n)
    (hinst : isInstInt v = true) : 0 ≤ numVal v := by
  cases v with
  | VInt n => exact hv n rfl
  | VBool b => cases b <;> simp [numVal]
  | VNone => exact absurd hinst (by simp [isInstInt])
  | VStr s => exact absurd hinst (by simp [isInstInt])
  | VOid s => exact absurd hinst (by simp [isInstInt])
  | VList l => exact absurd hinst (by simp [isInstInt])
  | VDict l => exact absurd hinst (by simp [isInstInt])

theorem bedFold_ok (l : List Val) (hl : ∀ b ∈ l, ∃ kvs : PyDict, b = VDict kvs) :
    ∀ c : Int, ∃ m : Int, l.foldlM bedConfigStep c = .ok m := by
  induction l with
  | nil => exact fun c => ⟨c, rfl⟩
  | cons b rest ih =>
    intro c
    obtain ⟨kvs, rfl⟩ := hl b (by simp)
    have hstep : ∃ c2 : Int, bedConfigStep c (VDict kvs) = .ok c2 := by
      simp only [bedConfigStep]
      cases h : pyIntCast (pyOr (dictGet kvs "count") (VInt 1)) with
      | ok n => exact ⟨c + n, rfl⟩
      | error e => exact ⟨c + 1, rfl⟩
    obtain ⟨c2, hc2⟩ := hstep
    obtain ⟨m, hm⟩ := ih (fun x hx => hl x (by simp [hx])) c2
    refine ⟨m, ?_⟩
    rw [List.foldlM_cons, hc2]
    simpa using hm

theorem bedFold_ge (l : List Val) :
    ∀ (c m : Int), l.foldlM bedConfigStep c = .ok m →
    (∀ kvs : PyDict, VDict kvs ∈ l →
      ∀ n : Int, pyIntCast (pyOr (dictGet kvs "count") (VInt 1)) = .ok n → 0 ≤ n) →
    c ≤ m := by
  induction l with
  | nil =>
    intro c m h _
    simp only [List.foldlM_nil] at h
    have : c = m := by
      have := Except.ok.inj h
      exact this
    omega
  | cons b rest ih =>
    intro c m h hcount
    rw [List.foldlM_cons] at h
    cases b with
    | VDict kvs =>
        cases hc : pyIntCast (pyOr (dictGet kvs "count") (VInt 1)) with
        | ok n =>
            have hn := hcount kvs (by simp) n hc
            have hstep : bedConfigStep c (VDict kvs) = .ok (c + n) := by
              simp only [bedConfigStep]
              rw [hc]
            rw [hstep] at h
            have hrec := ih (c + n) m (by simpa using h)
              (fun kvs2 hk2 => hcount kvs2 (by simp [hk2]))
            omega
        | error e =>
            have hstep : bedConfigStep c (VDict kvs) = .ok (c + 1) := by
              simp only [bedConfigStep]
              rw [hc]
            rw [hstep] at h
            have hrec := ih (c + 1) m (by simpa using h)
              (fun kvs2 hk2 => hcount kvs2 (by simp [hk2]))
            omega
    | VNone => simp [bedConfigStep, exceptBind_err] at h
    | VBool x => simp [bedConfigStep, exceptBind_err] at h
    | VInt x => simp [bedConfigStep, exceptBind_err] at h
    | VStr x => simp [bedConfigStep, exceptBind_err] at h
    | VOid x => simp [bedConfigStep, exceptBind_err] at h
    | VList x => simp [bedConfigStep, exceptBind_err] at h

theorem capacityAdultsBranch_nonneg (room : PyDict) (allow : Bool) (cap : Int)
    (h : capacityAdultsBranch room allow = some cap)
    (hnn : ∀ kv ∈ room, ∀ n : Int, pyIntCast kv.2 = .ok n → 0 ≤ n) : 0 ≤ cap := by
  unfold capacityAdultsBranch at h
  by_cases hkeys : (dictHasKey room "capacity_adults" || dictHasKey room "capacity_children") = true
  case neg =>
    rw [if_neg hkeys] at h
    exact absurd h (by simp)
  case pos =>
  rw [if_pos hkeys] at h
  cases ha : pyIntCast (pyOr (dictGet room "capacity_adults") (VInt 0)) with
  | error e =>
    rw [ha] at h
    simp at h
  | ok a =>
    cases hc : pyIntCast (pyOr (dictGet room "capacity_children") (VInt 0)) with
    | error e =>
      rw [ha, hc] at h
      simp at h
    | ok c =>
      rw [ha, hc] at h
      dsimp only at h
      have ha0 : 0 ≤ a := nonneg_or_zero _ (nonneg_dictGet room hnn "capacity_adults") a ha
      have hc0 : 0 ≤ c := nonneg_or_zero _ (nonneg_dictGet room hnn "capacity_children") c hc
      cases allow with
      | false =>
        rw [if_neg Bool.false_ne_true] at h
        have hcap := Option.some.inj h
        rw [← hcap]
        exact add_nonneg ha0 hc0
      | true =>
        rw [if_pos rfl] at h
        have hcap := Option.some.inj h
        rw [← hcap]
        have hadd : 0 ≤ (if extraBedVal room = VNone then (0 : Int)
            else match pyIntCast (extraBedVal room) with
              | .ok n => n
              | .error _ => 0) := by
          split
          · exact le_refl 0
          · split
            · next n he => exact nonneg_extraBedVal room hnn n he
            · next e he => exact le_refl 0
        exact add_nonneg (add_nonneg ha0 hc0) hadd

theorem capacityBase_ok (room : PyDict) (hwf : WellFormedBedConfig room) :
    ∃ n : Int, capacityBase room = .ok n ∧ (NonnegNumericFields room → 0 ≤ n) := by
  unfold capacityBase
  by_cases h1 : (dictHasKey room "capacity" && isInstInt (dictGet room "capacity")) = true
  · rw [if_pos h1]
    refine ⟨numVal (dictGet room "capacity"), rfl, ?_⟩
    intro hnn
    rw [Bool.and_eq_true] at h1
    exact numVal_nonneg_of_isInstInt _ (nonneg_dictGet room hnn.1 "capacity") h1.2
  · rw [if_neg h1]
    by_cases h2 : (dictHasKey room "sleeps" && isInstInt (dictGet room "sleeps")) = true
    · rw [if_pos h2]
      refine ⟨numVal (dictGet room "sleeps"), rfl, ?_⟩
      intro hnn
      rw [Bool.and_eq_true] at h2
      exact numVal_nonneg_of_isInstInt _ (nonneg_dictGet room hnn.1 "sleeps") h2.2
    · rw [if_neg h2]
      obtain ⟨l, hl, hdicts⟩ := hwf
      rw [hl]
      obtain ⟨m, hm⟩ := bedFold_ok l hdicts 0
      refine ⟨m, hm, ?_⟩
      intro hnn
      refine bedFold_ge l 0 m hm ?_
      intro kvs hk n hcast
      exact hnn.2 l hl kvs hk n hcast

/-- C7 counterexample: the claim says the capacity function never raises
on any malformed room document; but on a bed-configuration list entry
that is not a dict (here the integer 5), `b.get("count")` has no guarding
`try` and the function raises. -/
theorem room_capacity_raises_on_malformed_bedconfig :
    room_capacity (some [("bedConfig", VList [VInt 5])]) false = .error () := by decide

/-- C7 (amended): the capacity function never raises provided the room's
bed-configuration field, where the fallback uses it, is a list of dicts;
unparseable numeric fields are treated as 0 (or 1 for defaulted
bed-configuration counts) and the computation continues, returning an
integer that is ≥ 0 whenever all the room's parseable numeric fields and
bed counts are nonnegative.  (On a non-dict bed-configuration entry the
function raises, and a negative stored field propagates to a negative
result.) -/
theorem room_capacity_total (room : PyDict) (allow : Bool)
    (hwf : WellFormedBedConfig room) :
    ∃ n : Int, room_capacity (some room) allow = .ok n
      ∧ (NonnegNumericFields room → 0 ≤ n) := by
  unfold room_capacity
  dsimp only
  cases hb : capacityAdultsBranch room allow with
  | some cap =>
    exact ⟨cap, rfl, fun hnn => capacityAdultsBranch_nonneg room allow cap hb hnn.1⟩
  | none =>
    obtain ⟨m, hm, hmono⟩ := capacityBase_ok room hwf
    rw [hm]
    cases allow with
    | false => exact ⟨m, rfl, hmono⟩
    | true =>
      dsimp only [exceptBind_ok]
      by_cases hinst : isInstInt (extraBedVal room) = true
      · rw [if_pos hinst]
        refine ⟨m + numVal (extraBedVal room), rfl, ?_⟩
        intro hnn
        have h1 := hmono hnn
        have h2 := numVal_nonneg_of_isInstInt _ (nonneg_extraBedVal room hnn.1) hinst
        omega
      · rw [if_neg hinst]
        refine ⟨m + 1, rfl, ?_⟩
        intro hnn
        have h1 := hmono hnn
        omega

/-- C7 witness: the amended totality theorem at a concrete room
document. -/
theorem room_capacity_total_witness :
    ∃ n : Int, room_capacity (some [("capacity", VInt 4)]) true = .ok n
      ∧ (NonnegNumericFields [("capacity", VInt 4)] → 0 ≤ n) :=
  room_capacity_total [("capacity", VInt 4)] true
    ⟨[], by decide, fun b hb => absurd hb (by simp)⟩

/-- C8 counterexample: a room document carrying an explicit adults
capacity and no extra-bed field.  The claim says capacity(room, true) =
capacity(room, false) + 1 whenever no parseable extra-bed count exists;
here both sides are 2, because on the explicit adults/children branch the
code adds `int(eb)` defaulting to 0 — the flat +1 lives only on the
fallback branch. -/
theorem extra_beds_no_plus_one_on_adults_branch :
    extraBedVal [("capacity_adults", VInt 2)] = VNone
      ∧ room_capacity (some [("capacity_adults", VInt 2)]) false = .ok 2
      ∧ room_capacity (some [("capacity_adults", VInt 2)]) true = .ok 2 :=
  ⟨by decide, by decide, by decide⟩

/-- C8 (amended): for every room document *without* explicit adult/child
capacity keys, when allowExtraBeds is true and the effective extra-bed
value (`extra_beds`, else `extra_bedding`) is not an integer (nor a
bool), the computed capacity is exactly the capacity without extra beds
plus a flat 1, whenever the latter computes at all.  When adult/child
capacity keys are present and parseable, the extra-bed addition defaults
to 0 instead. -/
theorem extra_beds_flat_plus_one (room : PyDict) (n : Int)
    (hna : dictHasKey room "capacity_adults" = false)
    (hnc : dictHasKey room "capacity_children" = false)
    (hnoeb : isInstInt (extraBedVal room) = false)
    (hok : room_capacity (some room) false = .ok n) :
    room_capacity (some room) true = .ok (n + 1) := by
  have hbranch : ∀ al : Bool, capacityAdultsBranch room al = none := by
    intro al
    unfold capacityAdultsBranch
    rw [if_neg]
    rw [hna, hnc]
    simp
  unfold room_capacity at hok ⊢
  dsimp only at hok ⊢
  rw [hbranch] at hok ⊢
  dsimp only at hok ⊢
  cases hbase : capacityBase room with
  | error e =>
    rw [hbase, exceptBind_err] at hok
    exact absurd hok (by simp)
  | ok m =>
    rw [hbase, exceptBind_ok] at hok
    rw [if_neg Bool.false_ne_true] at hok
    have hmn : m = n := Except.ok.inj hok
    rw [exceptBind_ok, if_pos rfl]
    rw [if_neg (by rw [hnoeb]; exact Bool.false_ne_true)]
    rw [hmn]
    rfl

/-- C8 witness: the amended flat-+1 theorem at a concrete fallback-branch
room: capacity 4 without extra beds becomes 5 with them. -/
theorem extra_beds_flat_plus_one_witness :
    room_capacity (some [("capacity", VInt 4)]) true = .ok (4 + 1) :=
  extra_beds_flat_plus_one [("capacity", VInt 4)] 4
    (by decide) (by decide) (by decide) (by decide)

theorem asNum_of_vstr (s : String) : (VStr s).asNum = none := rfl

theorem pyLt_num {a b : Val} {x y : Int} (ha : a.asNum = some x) (hb : b.asNum = some y) :
    pyLt a b = .ok (decide (x < y)) := by
  unfold pyLt
  rw [ha, hb]

theorem pyLt_str (s u : String) : pyLt (VStr s) (VStr u) = .ok (decide (s < u)) := rfl

theorem pyLt_ok_cases {a b : Val} {t : Bool} (h : pyLt a b = .ok t) :
    (∃ x y, a.asNum = some x ∧ b.asNum = some y ∧ t = decide (x < y))
    ∨ (∃ s u, a = VStr s ∧ b = VStr u ∧ t = decide (s < u)) := by
  unfold pyLt at h
  cases ha : a.asNum with
  | some x =>
    cases hb : b.asNum with
    | some y =>
      rw [ha, hb] at h
      exact Or.inl ⟨x, y, rfl, rfl, (Except.ok.inj h).symm⟩
    | none =>
      rw [ha, hb] at h
      dsimp only at h
      cases a <;> cases b <;> simp_all
  | none =>
    cases hb : b.asNum with
    | some y =>
      rw [ha, hb] at h
      dsimp only at h
      cases a <;> cases b <;> simp_all
    | none =>
      rw [ha, hb] at h
      dsimp only at h
      cases a <;> cases b <;> simp_all [Val.asNum]

theorem pyLt_irrefl (v : Val) : pyLt v v ≠ .ok true := by
  intro h
  rcases pyLt_ok_cases h with ⟨x, y, hx, hy, ht⟩ | ⟨s, u, hs, hu, ht⟩
  · rw [hx] at hy
    have : x = y := Option.some.inj hy
    rw [this] at ht
    simp at ht
  · rw [hs] at hu
    have : s = u := Val.VStr.inj hu
    rw [this] at ht
    simp at ht

theorem pyLt_trans {a b c : Val} (h1 : pyLt a b = .ok true) (h2 : pyLt b c = .ok true) :
    pyLt a c = .ok true := by
  rcases pyLt_ok_cases h1 with ⟨x, y, hx, hy, ht⟩ | ⟨s, u, hs, hu, ht⟩ <;>
    rcases pyLt_ok_cases h2 with ⟨y', z, hy', hz, ht'⟩ | ⟨u', w, hu', hw, ht'⟩
  · rw [hy'] at hy
    have hyy : y' = y := Option.some.inj hy
    rw [pyLt_num hx hz]
    have hxy : x < y := of_decide_eq_true ht.symm
    have hyz : y' < z := of_decide_eq_true ht'.symm
    have hxz : x < z := by omega
    simp [hxz]
  · rw [hu'] at hy
    simp [Val.asNum] at hy
  · rw [hu] at hy'
    simp [Val.asNum] at hy'
  · rw [hu] at hu'
    have huu : u' = u := (Val.VStr.inj hu').symm
    rw [hs, hw, pyLt_str]
    have h3 : s < u := of_decide_eq_true ht.symm
    have h4 : u' < w := of_decide_eq_true ht'.symm
    rw [huu] at h4
    have h5 : s < w := lt_trans h3 h4
    simp [h5]

theorem pyLt_false_true_trans {a b c : Val} (h1 : pyLt a b = .ok false)
    (h2 : pyLt a c = .ok true) : pyLt b c = .ok true := by
  rcases pyLt_ok_cases h1 with ⟨x, y, hx, hy, ht⟩ | ⟨s, u, hs, hu, ht⟩ <;>
    rcases pyLt_ok_cases h2 with ⟨x', z, hx', hz, ht'⟩ | ⟨s', w, hs', hw, ht'⟩
  · rw [hx'] at hx
    have hxx : x' = x := Option.some.inj hx
    rw [pyLt_num hy hz]
    have hxy : ¬ x < y := of_decide_eq_false ht.symm
    have hxz : x' < z := of_decide_eq_true ht'.symm
    have hyz : y < z := by omega
    simp [hyz]
  · rw [hs'] at hx
    simp [Val.asNum] at hx
  · rw [hs] at hx'
    simp [Val.asNum] at hx'
  · rw [hs] at hs'
    have hss : s' = s := (Val.VStr.inj hs').symm
    rw [hu, hw, pyLt_str]
    have h3 : ¬ s < u := of_decide_eq_false ht.symm
    have h4 : s' < w := of_decide_eq_true ht'.symm
    rw [hss] at h4
    have h5 : u < w := lt_of_le_of_lt (not_lt.mp h3) h4
    simp [h5]

theorem pyMinBy_spec (key : Annot → Val) :
    ∀ (xs : List Annot) (x m : Annot), pyMinBy key x xs = .ok m →
      (m = x ∨ m ∈ xs) ∧ ∀ b, (b = x ∨ b ∈ xs) → pyLt (key b) (key m) ≠ .ok true := by
  intro xs
  induction xs with
  | nil =>
    intro x m h
    have hxm : x = m := Except.ok.inj h
    subst hxm
    refine ⟨Or.inl rfl, ?_⟩
    rintro b (rfl | hb)
    · exact pyLt_irrefl _
    · cases hb
  | cons a rest ih =>
    intro x m h
    unfold pyMinBy at h ih
    rw [List.foldlM_cons] at h
    cases hlt : pyLt (key a) (key x) with
    | error e =>
      rw [hlt, exceptBind_err, exceptBind_err] at h
      exact absurd h (by simp)
    | ok t =>
      rw [hlt, exceptBind_ok] at h
      cases t with
      | true =>
        rw [if_pos rfl] at h
        rw [exceptPure_bind] at h
        obtain ⟨hmem, hmin⟩ := ih a m h
        refine ⟨?_, ?_⟩
        · rcases hmem with rfl | hm
          · exact Or.inr (by simp)
          · exact Or.inr (by simp [hm])
        · rintro b (rfl | hb)
          · intro hcon
            exact hmin a (Or.inl rfl) (pyLt_trans hlt hcon)
          · rcases List.mem_cons.mp hb with rfl | hbr
            · exact hmin b (Or.inl rfl)
            · exact hmin b (Or.inr hbr)
      | false =>
        rw [if_neg Bool.false_ne_true] at h
        rw [exceptPure_bind] at h
        obtain ⟨hmem, hmin⟩ := ih x m h
        refine ⟨?_, ?_⟩
        · rcases hmem with rfl | hm
          · exact Or.inl rfl
          · exact Or.inr (by simp [hm])
        · rintro b (rfl | hb)
          · exact hmin b (Or.inl rfl)
          · rcases List.mem_cons.mp hb with rfl | hbr
            · intro hcon
              exact hmin x (Or.inl rfl) (pyLt_false_true_trans hlt hcon)
            · exact hmin b (Or.inr hbr)

/-- C4: whenever at least one single candidate room's capacity (under the
given allow-extra-beds setting) covers the guest count, the allocator
returns exactly one room id — that of a sufficient single room than which
no other sufficient single candidate is strictly cheaper — and never a
multi-room combination. -/
theorem allocator_single_room_fit (candidates : List PyDict) (guests : Int) (allow : Bool)
    (max_k : Nat) (anns : List Annot) (l : List Val)
    (hg : 0 < guests)
    (hanns : annotate allow candidates = .ok anns)
    (hfit : ∃ a ∈ anns, guests ≤ a.cap)
    (hres : allocate_rooms candidates guests allow none max_k = .ok l) :
    ∃ a ∈ anns, guests ≤ a.cap
      ∧ (∀ b ∈ anns, guests ≤ b.cap → pyLt b.price a.price ≠ .ok true)
      ∧ ∃ pid, dictGetItem a.room "_id" = .ok pid ∧ l = [pid] := by
  unfold allocate_rooms at hres
  rw [if_neg (by omega)] at hres
  rw [show filterPreferred candidates none = .ok candidates from rfl,
    exceptBind_ok, hanns, exceptBind_ok] at hres
  dsimp only at hres
  cases hs : anns.filter (fun a => decide (guests ≤ a.cap)) with
  | nil =>
    obtain ⟨a, ha, hcap⟩ := hfit
    have : a ∈ anns.filter (fun a => decide (guests ≤ a.cap)) :=
      List.mem_filter.mpr ⟨ha, by simpa⟩
    rw [hs] at this
    cases this
  | cons s0 more =>
    rw [hs] at hres
    dsimp only at hres
    cases hmin : pyMinBy (fun a => a.price) s0 more with
    | error e =>
      rw [hmin, exceptBind_err] at hres
      exact absurd hres (by simp)
    | ok pick =>
      rw [hmin, exceptBind_ok] at hres
      have hspec := pyMinBy_spec (fun a => a.price) more s0 pick hmin
      have hpickmem : pick ∈ anns.filter (fun a => decide (guests ≤ a.cap)) := by
        rw [hs]
        rcases hspec.1 with rfl | hm
        · exact List.mem_cons_self _ _
        · exact List.mem_cons_of_mem _ hm
      have hpick := List.mem_filter.mp hpickmem
      cases hid : dictGetItem pick.room "_id" with
      | error e =>
        rw [hid, exceptBind_err] at hres
        exact absurd hres (by simp)
      | ok pid =>
        rw [hid, exceptBind_ok] at hres
        refine ⟨pick, hpick.1, by simpa using hpick.2, ?_, pid, hid, ?_⟩
        · intro b hb hbcap
          have hbf : b ∈ anns.filter (fun a => decide (guests ≤ a.cap)) :=
            List.mem_filter.mpr ⟨hb, by simpa⟩
          rw [hs] at hbf
          rcases List.mem_cons.mp hbf with rfl | hbr
          · exact hspec.2 b (Or.inl rfl)
          · exact hspec.2 b (Or.inr hbr)
        · exact (Except.ok.inj hres).symm

theorem comboStep_invalid (guests : Int) (k : Nat) (st : Option BestCombo) (c : List Annot)
    (hval : ¬ guests ≤ (c.map (·.cap)).sum) : comboStep guests k st c = .ok st := by
  unfold comboStep
  rw [if_neg hval]
  rfl

theorem comboStep_none (guests : Int) (k : Nat) (c : List Annot) (p : Val)
    (hval : guests ≤ (c.map (·.cap)).sum)
    (hp : pySum (c.map (·.price)) = .ok p) :
    comboStep guests k none c = .ok (some ⟨c, k, p⟩) := by
  unfold comboStep
  rw [if_pos hval, hp, exceptBind_ok]
  rfl

theorem comboStep_some (guests : Int) (k : Nat) (b : BestCombo) (c : List Annot)
    (p : Val) (t : Bool)
    (hval : guests ≤ (c.map (·.cap)).sum)
    (hp : pySum (c.map (·.price)) = .ok p)
    (hbk : b.k = k)
    (hlt : pyLt p b.price = .ok t) :
    comboStep guests k (some b) c = .ok (if t then some ⟨c, k, p⟩ else some b) := by
  unfold comboStep
  rw [if_pos hval, hp, exceptBind_ok]
  dsimp only
  rw [if_neg (by omega), if_pos hbk.symm, hlt, exceptBind_ok]
  rfl

theorem comboFold_go (guests : Int) (k : Nat) :
    ∀ (cs : List (List Annot)) (st res : Option BestCombo),
    cs.foldlM (comboStep guests k) st = .ok res →
    (∀ b : BestCombo, st = some b → b.k = k) →
    (∀ r : BestCombo, res = some r → r.k = k)
    ∧ (res = none → st = none ∧ ∀ c ∈ cs, (c.map (·.cap)).sum < guests)
    ∧ (∀ r : BestCombo, res = some r →
        (st = some r ∨ (r.combo ∈ cs ∧ guests ≤ (r.combo.map (·.cap)).sum
            ∧ pySum (r.combo.map (·.price)) = .ok r.price))
        ∧ (∀ b : BestCombo, st = some b → pyLt r.price b.price = .ok true ∨ r = b)
        ∧ (∀ c ∈ cs, guests ≤ (c.map (·.cap)).sum →
            ∀ p, pySum (c.map (·.price)) = .ok p → pyLt p r.price ≠ .ok true)) := by
  intro cs
  induction cs with
  | nil =>
    intro st res h hk
    have hst : st = res := Except.ok.inj h
    subst hst
    refine ⟨fun r hr => hk r hr, fun hn => ⟨hn, by simp⟩, fun r hr => ⟨Or.inl hr, ?_, by simp⟩⟩
    intro b hb
    rw [hr] at hb
    exact Or.inr (Option.some.inj hb)
  | cons c cs ih =>
    intro st res h hk
    rw [List.foldlM_cons] at h
    by_cases hval : guests ≤ (c.map (·.cap)).sum
    · cases hp : pySum (c.map (·.price)) with
      | error e =>
        have hstep : comboStep guests k st c = .error () := by
          unfold comboStep
          rw [if_pos hval, hp]
          cases e
          rfl
        rw [hstep, exceptBind_err] at h
        exact absurd h (by simp)
      | ok p =>
        cases st with
        | none =>
          rw [comboStep_none guests k c p hval hp, exceptBind_ok] at h
          obtain ⟨ihk, ihnone, ihsome⟩ := ih (some ⟨c, k, p⟩) res h
            (by rintro b hb; rw [← Option.some.inj hb])
          refine ⟨ihk, ?_, ?_⟩
          · intro hres
            exact absurd (ihnone hres).1 (by simp)
          · intro r hr
            obtain ⟨horig, himp, hmin⟩ := ihsome r hr
            refine ⟨?_, ?_, ?_⟩
            · rcases horig with heq | hmem
              · have hrc : r = ⟨c, k, p⟩ := (Option.some.inj heq).symm
                right
                rw [hrc]
                exact ⟨by simp, hval, hp⟩
              · exact Or.inr ⟨List.mem_cons_of_mem _ hmem.1, hmem.2.1, hmem.2.2⟩
            · rintro b hb
              cases hb
            · intro c' hc' hval' p' hp' hcon
              rcases List.mem_cons.mp hc' with rfl | hmem'
              · have hpp : p' = p := by
                  rw [hp] at hp'
                  exact (Except.ok.inj hp').symm
                rw [hpp] at hcon
                rcases himp _ rfl with himp' | hrb
                · exact pyLt_irrefl p (pyLt_trans hcon himp')
                · rw [hrb] at hcon
                  exact pyLt_irrefl p hcon
              · exact hmin c' hmem' hval' p' hp' hcon
        | some b =>
          have hbk : b.k = k := hk b rfl
          cases hlt : pyLt p b.price with
          | error e =>
            have hstep : comboStep guests k (some b) c = .error () := by
              unfold comboStep
              rw [if_pos hval, hp, exceptBind_ok]
              dsimp only
              rw [if_neg (by omega), if_pos hbk.symm, hlt]
              cases e
              rfl
            rw [hstep, exceptBind_err] at h
            exact absurd h (by simp)
          | ok t =>
            rw [comboStep_some guests k b c p t hval hp hbk hlt, exceptBind_ok] at h
            cases t with
            | true =>
              rw [if_pos rfl] at h
              obtain ⟨ihk, ihnone, ihsome⟩ := ih (some ⟨c, k, p⟩) res h
                (by rintro b0 hb0; rw [← Option.some.inj hb0])
              refine ⟨ihk, ?_, ?_⟩
              · intro hres
                exact absurd (ihnone hres).1 (by simp)
              · intro r hr
                obtain ⟨horig, himp, hmin⟩ := ihsome r hr
                have hrel : pyLt r.price p = .ok true ∨ r = (⟨c, k, p⟩ : BestCombo) := by
                  rcases himp ⟨c, k, p⟩ rfl with himp' | hrb
                  · exact Or.inl himp'
                  · exact Or.inr hrb
                refine ⟨?_, ?_, ?_⟩
                · rcases horig with heq | hmem
                  · have hrc : r = ⟨c, k, p⟩ := (Option.some.inj heq).symm
                    right
                    rw [hrc]
                    exact ⟨by simp, hval, hp⟩
                  · exact Or.inr ⟨List.mem_cons_of_mem _ hmem.1, hmem.2.1, hmem.2.2⟩
                · intro b0 hb0
                  have hbb : b0 = b := Option.some.inj hb0.symm
                  subst hbb
                  rcases hrel with h1 | h1
                  · exact Or.inl (pyLt_trans h1 hlt)
                  · left
                    rw [h1]
                    exact hlt
                · intro c' hc' hval' p' hp' hcon
                  rcases List.mem_cons.mp hc' with rfl | hmem'
                  · have hpp : p' = p := by
                      rw [hp] at hp'
                      exact (Except.ok.inj hp').symm
                    rw [hpp] at hcon
                    rcases hrel with h1 | h1
                    · exact pyLt_irrefl p (pyLt_trans hcon h1)
                    · rw [h1] at hcon
                      exact pyLt_irrefl p hcon
                  · exact hmin c' hmem' hval' p' hp' hcon
            | false =>
              rw [if_neg Bool.false_ne_true] at h
              obtain ⟨ihk, ihnone, ihsome⟩ := ih (some b) res h hk
              refine ⟨ihk, ?_, ?_⟩
              · intro hres
                exact absurd (ihnone hres).1 (by simp)
              · intro r hr
                obtain ⟨horig, himp, hmin⟩ := ihsome r hr
                refine ⟨?_, himp, ?_⟩
                · rcases horig with heq | hmem
                  · exact Or.inl heq
                  · exact Or.inr ⟨List.mem_cons_of_mem _ hmem.1, hmem.2.1, hmem.2.2⟩
                · intro c' hc' hval' p' hp' hcon
                  rcases List.mem_cons.mp hc' with rfl | hmem'
                  · have hpp : p' = p := by
                      rw [hp] at hp'
                      exact (Except.ok.inj hp').symm
                    rw [hpp] at hcon
                    rcases himp b rfl with h1 | h1
                    · have h2 := pyLt_trans hcon h1
                      rw [hlt] at h2
                      exact Bool.noConfusion (Except.ok.inj h2)
                    · rw [h1] at hcon
                      rw [hlt] at hcon
                      exact Bool.noConfusion (Except.ok.inj hcon)
                  · exact hmin c' hmem' hval' p' hp' hcon
    · rw [comboStep_invalid guests k st c hval, exceptBind_ok] at h
      obtain ⟨ihk, ihnone, ihsome⟩ := ih st res h hk
      refine ⟨ihk, ?_, ?_⟩
      · intro hres
        obtain ⟨h1, h2⟩ := ihnone hres
        refine ⟨h1, ?_⟩
        intro c' hc'
        rcases List.mem_cons.mp hc' with rfl | hmem'
        · omega
        · exact h2 c' hmem'
      · intro r hr
        obtain ⟨horig, himp, hmin⟩ := ihsome r hr
        refine ⟨?_, himp, ?_⟩
        · rcases horig with heq | hmem
          · exact Or.inl heq
          · exact Or.inr ⟨List.mem_cons_of_mem _ hmem.1, hmem.2.1, hmem.2.2⟩
        · intro c' hc' hval' p' hp' hcon
          rcases List.mem_cons.mp hc' with rfl | hmem'
          · exact absurd hval' hval
          · exact hmin c' hmem' hval' p' hp' hcon

theorem comboLoop_spec (guests : Int) (anns : List Annot) :
    ∀ (fuel k : Nat) (res : Option BestCombo),
    comboLoop guests anns fuel k none = .ok res →
    (res = none → ∀ j, k ≤ j → j < k + fuel →
        ∀ c ∈ combosL j anns, (c.map (·.cap)).sum < guests)
    ∧ (∀ r : BestCombo, res = some r →
        k ≤ r.k ∧ r.k < k + fuel
        ∧ (∀ j, k ≤ j → j < r.k → ∀ c ∈ combosL j anns, (c.map (·.cap)).sum < guests)
        ∧ r.combo ∈ combosL r.k anns
        ∧ guests ≤ (r.combo.map (·.cap)).sum
        ∧ pySum (r.combo.map (·.price)) = .ok r.price
        ∧ (∀ c ∈ combosL r.k anns, guests ≤ (c.map (·.cap)).sum →
            ∀ p, pySum (c.map (·.price)) = .ok p → pyLt p r.price ≠ .ok true)) := by
  intro fuel
  induction fuel with
  | zero =>
    intro k res h
    unfold comboLoop at h
    have hres : none = res := Except.ok.inj h
    subst hres
    refine ⟨fun _ j hj1 hj2 => by omega, ?_⟩
    intro r hr
    cases hr
  | succ fuel ih =>
    intro k res h
    unfold comboLoop at h
    cases hfold : (combosL k anns).foldlM (comboStep guests k) none with
    | error e =>
      rw [hfold, exceptBind_err] at h
      exact absurd h (by simp)
    | ok best =>
      rw [hfold, exceptBind_ok] at h
      obtain ⟨fk, fnone, fsome⟩ := comboFold_go guests k (combosL k anns) none best hfold
        (by rintro b hb; cases hb)
      cases best with
      | some r0 =>
        rw [if_pos (by simp)] at h
        have hres : some r0 = res := Except.ok.inj h
        subst hres
        constructor
        · intro habs
          cases habs
        · intro r hr
          have hrr : r0 = r := Option.some.inj hr
          subst hrr
          have hr0k : r0.k = k := fk r0 rfl
          obtain ⟨horig, _, hmin⟩ := fsome r0 rfl
          rcases horig with habs | hprops
          · cases habs
          · refine ⟨by omega, by omega, ?_, by rw [hr0k]; exact hprops.1,
              hprops.2.1, hprops.2.2, by rw [hr0k]; exact hmin⟩
            intro j hj1 hj2
            omega
      | none =>
        rw [if_neg (by simp)] at h
        obtain ⟨inone, isome⟩ := ih (k + 1) res h
        have hkall : ∀ c ∈ combosL k anns, (c.map (·.cap)).sum < guests := (fnone rfl).2
        constructor
        · intro hres j hj1 hj2
          by_cases hjk : j = k
          · subst hjk
            exact hkall
          · exact inone hres j (by omega) (by omega)
        · intro r hr
          obtain ⟨h1, h2, h3, h4, h5, h6, h7⟩ := isome r hr
          refine ⟨by omega, by omega, ?_, h4, h5, h6, h7⟩
          intro j hj1 hj2
          by_cases hjk : j = k
          · subst hjk
            exact hkall
          · exact h3 j (by omega) (by omega)

theorem combosL_sublist {α : Type} :
    ∀ (k : Nat) (l c : List α), c ∈ combosL k l → c.Sublist l := by
  intro k l
  induction l generalizing k with
  | nil =>
    intro c hc
    cases k with
    | zero =>
      simp only [combosL, List.mem_singleton] at hc
      subst hc
      exact List.Sublist.refl []
    | succ k =>
      simp [combosL] at hc
  | cons x xs ih =>
    intro c hc
    cases k with
    | zero =>
      simp only [combosL, List.mem_singleton] at hc
      subst hc
      exact List.nil_sublist _
    | succ k =>
      rw [combosL] at hc
      rcases List.mem_append.mp hc with hl | hr
      · obtain ⟨c', hc', rfl⟩ := List.mem_map.mp hl
        exact List.Sublist.cons₂ x (ih k c' hc')
      · exact List.Sublist.cons x (ih (k + 1) c hr)

theorem combosL_length {α : Type} :
    ∀ (k : Nat) (l c : List α), c ∈ combosL k l → c.length = k := by
  intro k l
  induction l generalizing k with
  | nil =>
    intro c hc
    cases k with
    | zero =>
      simp only [combosL, List.mem_singleton] at hc
      subst hc
      rfl
    | succ k =>
      simp [combosL] at hc
  | cons x xs ih =>
    intro c hc
    cases k with
    | zero =>
      simp only [combosL, List.mem_singleton] at hc
      subst hc
      rfl
    | succ k =>
      rw [combosL] at hc
      rcases List.mem_append.mp hc with hl | hr
      · obtain ⟨c', hc', rfl⟩ := List.mem_map.mp hl
        simp [ih k c' hc']
      · exact ih (k + 1) c hr

/-- C5: when no single candidate room covers the guest count but some
k-combination within the group-size bound does, the allocator returns the
ids of a combination found at the smallest such k: its size is exactly
that k, every combination of any smaller size ≥ 2 falls short of the
guest count (smaller k always beats cheaper larger k), and no other
capacity-sufficient combination of the same k has a strictly smaller
total price. -/
theorem allocator_minimal_k (candidates : List PyDict) (guests : Int) (allow : Bool)
    (max_k : Nat) (anns : List Annot) (l : List Val)
    (hg : 0 < guests)
    (hanns : annotate allow candidates = .ok anns)
    (hnosingle : ∀ a ∈ anns, a.cap < guests)
    (hex : ∃ k, 2 ≤ k ∧ k ≤ min max_k anns.length
      ∧ ∃ c ∈ combosL k anns, guests ≤ (c.map (·.cap)).sum)
    (hres : allocate_rooms candidates guests allow none max_k = .ok l) :
    ∃ r : BestCombo,
      2 ≤ r.k ∧ r.k ≤ min max_k anns.length
      ∧ r.combo ∈ combosL r.k anns
      ∧ r.combo.length = r.k
      ∧ guests ≤ (r.combo.map (·.cap)).sum
      ∧ (∀ j, 2 ≤ j → j < r.k → ∀ c ∈ combosL j anns, (c.map (·.cap)).sum < guests)
      ∧ (∀ c ∈ combosL r.k anns, guests ≤ (c.map (·.cap)).sum →
          ∀ p, pySum (c.map (·.price)) = .ok p → pyLt p r.price ≠ .ok true)
      ∧ r.combo.mapM (fun a => dictGetItem a.room "_id") = .ok l := by
  unfold allocate_rooms at hres
  rw [if_neg (by omega)] at hres
  rw [show filterPreferred candidates none = .ok candidates from rfl,
    exceptBind_ok, hanns, exceptBind_ok] at hres
  dsimp only at hres
  have hsing : anns.filter (fun a => decide (guests ≤ a.cap)) = [] := by
    rw [List.filter_eq_nil_iff]
    intro a ha
    have := hnosingle a ha
    simp only [decide_eq_true_eq]
    omega
  rw [hsing] at hres
  dsimp only at hres
  obtain ⟨k0, hk02, hk0mk, c0, hc0, hcap0⟩ := hex
  cases hloop : comboLoop guests anns (min max_k anns.length - 1) 2 none with
  | error e =>
    rw [hloop, exceptBind_err] at hres
    exact absurd hres (by simp)
  | ok best =>
    rw [hloop, exceptBind_ok] at hres
    obtain ⟨lnone, lsome⟩ := comboLoop_spec guests anns (min max_k anns.length - 1) 2 best hloop
    cases best with
    | none =>
      exfalso
      have := lnone rfl k0 hk02 (by omega) c0 hc0
      omega
    | some r =>
      obtain ⟨h1, h2, h3, h4, h5, h6, h7⟩ := lsome r rfl
      dsimp only at hres
      exact ⟨r, h1, by omega, h4, combosL_length r.k anns r.combo h4, h5, h3, h7, hres⟩

/-- C4 witness: the spec's concrete allocation example — rooms
A(cap 2, price 10), B(cap 3, price 8), C(cap 5, price 20) and 5 guests —
returns exactly [C], the cheapest sufficient single room. -/
theorem allocator_single_room_fit_witness :
    ∃ a ∈ annsABC, (5 : Int) ≤ a.cap
      ∧ (∀ b ∈ annsABC, (5 : Int) ≤ b.cap → pyLt b.price a.price ≠ .ok true)
      ∧ ∃ pid, dictGetItem a.room "_id" = .ok pid ∧ [VStr "C"] = [pid] :=
  allocator_single_room_fit [roomA, roomB, roomC] 5 false 4 annsABC [VStr "C"]
    (by decide) (by decide) (by decide) (by decide)

/-- C5 witness: the spec's concrete multi-room example — same rooms,
6 guests (no single room fits) — returns the cheapest k=2 combination
[B, C]. -/
theorem allocator_minimal_k_witness :
    ∃ r : BestCombo,
      2 ≤ r.k ∧ r.k ≤ min 4 annsABC.length
      ∧ r.combo ∈ combosL r.k annsABC
      ∧ r.combo.length = r.k
      ∧ (6 : Int) ≤ (r.combo.map (·.cap)).sum
      ∧ (∀ j, 2 ≤ j → j < r.k → ∀ c ∈ combosL j annsABC, (c.map (·.cap)).sum < 6)
      ∧ (∀ c ∈ combosL r.k annsABC, (6 : Int) ≤ (c.map (·.cap)).sum →
          ∀ p, pySum (c.map (·.price)) = .ok p → pyLt p r.price ≠ .ok true)
      ∧ r.combo.mapM (fun a => dictGetItem a.room "_id") = .ok [VStr "B", VStr "C"] :=
  allocator_minimal_k [roomA, roomB, roomC] 6 false 4 annsABC [VStr "B", VStr "C"]
    (by decide) (by decide) (by decide)
    ⟨2, by decide, by decide,
      ⟨[⟨roomB, 3, VInt 8⟩, ⟨roomC, 5, VInt 20⟩], by decide, by decide⟩⟩
    (by decide)

theorem mapM_ok_iff {α β : Type} (f : α → Except Unit β) :
    ∀ (xs : List α) (ys : List β),
    xs.mapM f = .ok ys ↔ List.Forall₂ (fun x y => f x = .ok y) xs ys := by
  intro xs
  induction xs with
  | nil =>
    intro ys
    constructor
    · intro h
      have : ys = [] := (Except.ok.inj h).symm
      subst this
      exact List.Forall₂.nil
    · intro h
      cases h
      rfl
  | cons x xs ih =>
    intro ys
    rw [List.mapM_cons]
    constructor
    · intro h
      cases hx : f x with
      | error e =>
        rw [hx, exceptBind_err] at h
        exact absurd h (by simp)
      | ok y =>
        rw [hx, exceptBind_ok] at h
        cases hrest : xs.mapM f with
        | error e =>
          rw [hrest, exceptBind_err] at h
          exact absurd h (by simp)
        | ok ys' =>
          rw [hrest, exceptBind_ok] at h
          have : y :: ys' = ys := Except.ok.inj h
          subst this
          exact List.Forall₂.cons hx ((ih ys').mp hrest)
    · intro h
      cases h with
      | cons hx hrest =>
        rename_i y ys'
        rw [hx, exceptBind_ok, (ih ys').mpr hrest, exceptBind_ok]
        rfl

theorem forall₂_ok_unique {α β : Type} (f : α → Except Unit β) :
    ∀ (xs : List α) (ys ys' : List β),
    List.Forall₂ (fun x y => f x = .ok y) xs ys →
    List.Forall₂ (fun x y => f x = .ok y) xs ys' → ys = ys' := by
  intro xs
  induction xs with
  | nil =>
    intro ys ys' h h'
    cases h
    cases h'
    rfl
  | cons x xs ih =>
    intro ys ys' h h'
    cases h with
    | cons hx hrest =>
      cases h' with
      | cons hx' hrest' =>
        rename_i y ysr y' ysr'
        have hy : y = y' := by
          rw [hx] at hx'
          exact Except.ok.inj hx'
        rw [hy, ih _ _ hrest hrest']

theorem sublist_forall₂ {α β : Type} {R : α → β → Prop} :
    ∀ {xs' xs : List α}, xs'.Sublist xs → ∀ {ys : List β}, List.Forall₂ R xs ys →
    ∃ ys', List.Forall₂ R xs' ys' ∧ ys'.Sublist ys := by
  intro xs' xs hsub
  induction hsub with
  | slnil =>
    intro ys h
    cases h
    exact ⟨[], List.Forall₂.nil, List.Sublist.refl []⟩
  | @cons l₁ l₂ a hsub ih =>
    intro ys h
    cases h with
    | cons hx hrest =>
      obtain ⟨ys', h1, h2⟩ := ih hrest
      exact ⟨ys', h1, h2.cons _⟩
  | @cons₂ l₁ l₂ a hsub ih =>
    intro ys h
    cases h with
    | cons hx hrest =>
      obtain ⟨ys', h1, h2⟩ := ih hrest
      exact ⟨_ :: ys', List.Forall₂.cons hx h1, h2.cons₂ _⟩

theorem perm_forall₂ {α β : Type} {R : α → β → Prop} :
    ∀ {xs xs2 : List α}, xs.Perm xs2 → ∀ {ys : List β}, List.Forall₂ R xs ys →
    ∃ ys2, List.Forall₂ R xs2 ys2 ∧ ys.Perm ys2 := by
  intro xs xs2 hperm
  induction hperm with
  | nil =>
    intro ys h
    cases h
    exact ⟨[], List.Forall₂.nil, List.Perm.refl []⟩
  | cons a p ih =>
    intro ys h
    cases h with
    | cons hx hrest =>
      obtain ⟨ys2, h1, h2⟩ := ih hrest
      exact ⟨_ :: ys2, List.Forall₂.cons hx h1, h2.cons _⟩
  | swap a b l =>
    intro ys h
    cases h with
    | cons hb hrest =>
      cases hrest with
      | cons ha htail =>
        exact ⟨_ :: _ :: _, List.Forall₂.cons ha (List.Forall₂.cons hb htail),
          List.Perm.swap _ _ _⟩
  | trans p1 p2 ih1 ih2 =>
    intro ys h
    obtain ⟨ys2, h1, h2⟩ := ih1 h
    obtain ⟨ys3, h3, h4⟩ := ih2 h1
    exact ⟨ys3, h3, h2.trans h4⟩

theorem forall₂_of_map {α β γ : Type} {R : β → γ → Prop} (f : α → β) :
    ∀ {xs : List α} {ys : List γ}, List.Forall₂ R (xs.map f) ys →
    List.Forall₂ (fun x y => R (f x) y) xs ys := by
  intro xs
  induction xs with
  | nil =>
    intro ys h
    cases h
    exact List.Forall₂.nil
  | cons x xs ih =>
    intro ys h
    rw [List.map_cons] at h
    cases h with
    | cons hx hrest => exact List.Forall₂.cons hx (ih hrest)

theorem annotate_elem (allow : Bool) (r : PyDict) (e : Annot)
    (h : (room_capacity (some r) allow >>=
      fun cap => pure (Annot.mk r cap (roomPrice r))) = Except.ok e) :
    e.room = r ∧ room_capacity (some r) allow = .ok e.cap := by
  cases hc : room_capacity (some r) allow with
  | error err =>
    rw [hc, exceptBind_err] at h
    exact absurd h (by simp)
  | ok cap =>
    rw [hc, exceptBind_ok] at h
    have h' : Except.ok (Annot.mk r cap (roomPrice r)) = Except.ok e := h
    have he : Annot.mk r cap (roomPrice r) = e := Except.ok.inj h'
    subst he
    exact ⟨rfl, rfl⟩

theorem annotate_spec (allow : Bool) :
    ∀ (rooms : List PyDict) (anns : List Annot), annotate allow rooms = .ok anns →
    anns.map (·.room) = rooms
      ∧ ∀ e ∈ anns, room_capacity (some e.room) allow = .ok e.cap := by
  intro rooms anns h
  unfold annotate at h
  have hf := (mapM_ok_iff _ rooms anns).mp h
  clear h
  induction hf with
  | nil => exact ⟨rfl, fun e he => absurd he (by simp)⟩
  | cons hx hrest ih =>
    obtain ⟨hr, hc⟩ := annotate_elem allow _ _ hx
    refine ⟨by rw [List.map_cons, hr, ih.1], ?_⟩
    intro e he
    rcases List.mem_cons.mp he with rfl | he'
    · rw [hr]
      exact hc
    · exact ih.2 e he'

theorem filterPrefM_sublist (prefs : List String) :
    ∀ (l out : List PyDict), filterPrefM prefs l = .ok out → out.Sublist l := by
  intro l
  induction l with
  | nil =>
    intro out h
    have h2 : [] = out := Except.ok.inj h
    subst h2
    exact List.Sublist.refl []
  | cons r rest ih =>
    intro out h
    unfold filterPrefM at h
    cases hm : matchesPref prefs r with
    | error e =>
      rw [hm, exceptBind_err] at h
      exact absurd h (by simp)
    | ok keep =>
      rw [hm, exceptBind_ok] at h
      cases ht : filterPrefM prefs rest with
      | error e =>
        rw [ht, exceptBind_err] at h
        exact absurd h (by simp)
      | ok tail =>
        rw [ht, exceptBind_ok] at h
        have h2 : (if keep then r :: tail else tail) = out := Except.ok.inj h
        subst h2
        cases keep with
        | true => exact (ih tail ht).cons₂ r
        | false => exact (ih tail ht).cons r

theorem filterPreferred_sublist (candidates : List PyDict) (prefs : Option (List String))
    (out : List PyDict) (h : filterPreferred candidates prefs = .ok out) :
    out.Sublist candidates := by
  cases prefs with
  | none =>
    have h2 : candidates = out := Except.ok.inj h
    subst h2
    exact List.Sublist.refl _
  | some l =>
    cases l with
    | nil =>
      have h2 : candidates = out := Except.ok.inj h
      subst h2
      exact List.Sublist.refl _
    | cons p ps =>
      unfold filterPreferred at h
      dsimp only at h
      cases hf : filterPrefM ((p :: ps).map (·.toLower)) candidates with
      | error e =>
        rw [hf, exceptBind_err] at h
        exact absurd h (by simp)
      | ok filtered =>
        rw [hf, exceptBind_ok] at h
        have h2 : (if filtered.isEmpty then candidates else filtered) = out :=
          Except.ok.inj h
        subst h2
        cases he : filtered.isEmpty with
        | true =>
          rw [if_pos rfl]
        | false =>
          rw [if_neg (by simp)]
          exact filterPrefM_sublist _ _ _ hf

theorem insertSorted_perm (x : Annot) :
    ∀ (l out : List Annot), insertSorted x l = .ok out → out.Perm (x :: l) := by
  intro l
  induction l with
  | nil =>
    intro out h
    have h2 : [x] = out := Except.ok.inj h
    subst h2
    exact List.Perm.refl _
  | cons y ys ih =>
    intro out h
    unfold insertSorted at h
    cases hlt : sortKeyLt y x with
    | error e =>
      rw [hlt, exceptBind_err] at h
      exact absurd h (by simp)
    | ok t =>
      rw [hlt, exceptBind_ok] at h
      cases t with
      | true =>
        rw [if_pos rfl] at h
        cases hrec : insertSorted x ys with
        | error e =>
          rw [hrec, exceptBind_err] at h
          exact absurd h (by simp)
        | ok rest =>
          rw [hrec, exceptBind_ok] at h
          have h2 : y :: rest = out := Except.ok.inj h
          subst h2
          exact (List.Perm.cons y (ih rest hrec)).trans (List.Perm.swap x y ys)
      | false =>
        rw [if_neg (by simp)] at h
        have h2 : x :: y :: ys = out := Except.ok.inj h
        subst h2
        exact List.Perm.refl _

theorem sortedByKey_perm :
    ∀ (l out : List Annot), sortedByKey l = .ok out → out.Perm l := by
  intro l
  induction l with
  | nil =>
    intro out h
    have h2 : [] = out := Except.ok.inj h
    subst h2
    exact List.Perm.refl _
  | cons x xs ih =>
    intro out h
    unfold sortedByKey at h
    cases hr : sortedByKey xs with
    | error e =>
      rw [hr, exceptBind_err] at h
      exact absurd h (by simp)
    | ok rest =>
      rw [hr, exceptBind_ok] at h
      exact (insertSorted_perm x rest out h).trans (List.Perm.cons x (ih rest hr))

theorem greedyLoop_spec (guests : Int) :
    ∀ (xs : List Annot) (total : Int) (acc : List Val) (res : Int × List Val),
    greedyLoop guests xs total acc = .ok res →
    ∃ pre : List Annot, pre.Sublist xs
      ∧ (∃ pids : List Val,
          List.Forall₂ (fun (a : Annot) (v : Val) => dictGetItem a.room "_id" = .ok v) pre pids
          ∧ res.2 = acc ++ pids)
      ∧ res.1 = total + (pre.map (·.cap)).sum := by
  intro xs
  induction xs with
  | nil =>
    intro total acc res h
    have h2 : (total, acc) = res := Except.ok.inj h
    subst h2
    exact ⟨[], List.nil_sublist _, ⟨[], List.Forall₂.nil, by simp⟩, by simp⟩
  | cons a rest ih =>
    intro total acc res h
    unfold greedyLoop at h
    by_cases hg : guests ≤ total
    · rw [if_pos hg] at h
      have h2 : (total, acc) = res := Except.ok.inj h
      subst h2
      exact ⟨[], List.nil_sublist _, ⟨[], List.Forall₂.nil, by simp⟩, by simp⟩
    · rw [if_neg hg] at h
      cases hid : dictGetItem a.room "_id" with
      | error e =>
        rw [hid, exceptBind_err] at h
        exact absurd h (by simp)
      | ok pid =>
        rw [hid, exceptBind_ok] at h
        obtain ⟨pre, hsub, ⟨pids, hfa, hacc⟩, htot⟩ := ih (total + a.cap) (acc ++ [pid]) res h
        refine ⟨a :: pre, hsub.cons₂ a, ⟨pid :: pids, List.Forall₂.cons hid hfa, ?_⟩, ?_⟩
        · rw [hacc, List.append_assoc]
          rfl
        · rw [htot, List.map_cons, List.sum_cons]
          omega

/-- C10 counterexample: with the same candidate document listed twice, the
allocator returns the same room id twice, so without pairwise-distinct
candidate ids the returned ids are not pairwise distinct. -/
theorem allocator_duplicate_ids :
    allocate_rooms [roomX, roomX] 2 false none 4 = .ok [VStr "X", VStr "X"]
      ∧ ¬ ([VStr "X", VStr "X"] : List Val).Nodup :=
  ⟨rfl, by decide⟩

/-- C10 (amended): when the candidate rooms carry pairwise-distinct ids,
every non-empty allocation consists of pairwise-distinct ids of candidate
rooms whose capacities (under the given allow-extra-beds setting) sum to
at least the guest count — on all three allocator branches (single-room
fit, k-combination search, greedy fallback). -/
theorem allocator_ids_distinct_and_sufficient (candidates : List PyDict) (guests : Int)
    (allow : Bool) (prefs : Option (List String)) (max_k : Nat) (ids l : List Val)
    (hg : 0 < guests)
    (hids : candidates.mapM (fun r => dictGetItem r "_id") = .ok ids)
    (hnodup : ids.Nodup)
    (hres : allocate_rooms candidates guests allow prefs max_k = .ok l)
    (hne : l ≠ []) :
    l.Nodup ∧ ∃ sub : List Annot,
      (∀ e ∈ sub, e.room ∈ candidates ∧ room_capacity (some e.room) allow = .ok e.cap)
      ∧ sub.mapM (fun e => dictGetItem e.room "_id") = .ok l
      ∧ guests ≤ (sub.map (·.cap)).sum := by
  unfold allocate_rooms at hres
  rw [if_neg (by omega)] at hres
  cases hfp : filterPreferred candidates prefs with
  | error e =>
    rw [hfp, exceptBind_err] at hres
    exact absurd hres (by simp)
  | ok filtered =>
  rw [hfp, exceptBind_ok] at hres
  cases hann : annotate allow filtered with
  | error e =>
    rw [hann, exceptBind_err] at hres
    exact absurd hres (by simp)
  | ok anns =>
  rw [hann, exceptBind_ok] at hres
  dsimp only at hres
  have hsubF : filtered.Sublist candidates :=
    filterPreferred_sublist candidates prefs filtered hfp
  obtain ⟨hmap, hcap⟩ := annotate_spec allow filtered anns hann
  have hforall := (mapM_ok_iff (fun r => dictGetItem r "_id") candidates ids).mp hids
  obtain ⟨fids, hfaF, hfsub⟩ := sublist_forall₂ hsubF hforall
  have hNodupf : fids.Nodup := hnodup.sublist hfsub
  rw [← hmap] at hfaF
  have hannF := forall₂_of_map (fun a : Annot => a.room) hfaF
  have hmemc : ∀ e ∈ anns, e.room ∈ candidates := by
    intro e he
    have h1 : e.room ∈ anns.map (fun a : Annot => a.room) :=
      List.mem_map_of_mem _ he
    rw [hmap] at h1
    exact hsubF.subset h1
  cases hs : anns.filter (fun a => decide (guests ≤ a.cap)) with
  | cons s0 more =>
    rw [hs] at hres
    dsimp only at hres
    cases hmin : pyMinBy (fun a => a.price) s0 more with
    | error e =>
      rw [hmin, exceptBind_err] at hres
      exact absurd hres (by simp)
    | ok pick =>
    rw [hmin, exceptBind_ok] at hres
    have hspec := pyMinBy_spec (fun a => a.price) more s0 pick hmin
    have hpickmem : pick ∈ anns.filter (fun a => decide (guests ≤ a.cap)) := by
      rw [hs]
      rcases hspec.1 with rfl | hm
      · exact List.mem_cons_self _ _
      · exact List.mem_cons_of_mem _ hm
    have hpick := List.mem_filter.mp hpickmem
    have hcapge : guests ≤ pick.cap := by simpa using hpick.2
    cases hid : dictGetItem pick.room "_id" with
    | error e =>
      rw [hid, exceptBind_err] at hres
      exact absurd hres (by simp)
    | ok pid =>
    rw [hid, exceptBind_ok] at hres
    have hl : [pid] = l := Except.ok.inj hres
    subst hl
    refine ⟨List.nodup_singleton _, [pick], ?_, ?_, ?_⟩
    · intro e he
      rcases List.mem_singleton.mp he with rfl
      exact ⟨hmemc _ hpick.1, hcap _ hpick.1⟩
    · exact (mapM_ok_iff _ _ _).mpr (List.Forall₂.cons hid List.Forall₂.nil)
    · simp only [List.map_cons, List.map_nil, List.sum_cons, List.sum_nil]
      omega
  | nil =>
    rw [hs] at hres
    dsimp only at hres
    cases hloop : comboLoop guests anns (min max_k anns.length - 1) 2 none with
    | error e =>
      rw [hloop, exceptBind_err] at hres
      exact absurd hres (by simp)
    | ok best =>
    rw [hloop, exceptBind_ok] at hres
    cases best with
    | some r =>
      dsimp only at hres
      obtain ⟨_, lsome⟩ :=
        comboLoop_spec guests anns (min max_k anns.length - 1) 2 (some r) hloop
      obtain ⟨_, _, _, hmemC, hcapC, _, _⟩ := lsome r rfl
      have hsubC : r.combo.Sublist anns := combosL_sublist r.k anns r.combo hmemC
      obtain ⟨cids, hfc, hcsub⟩ := sublist_forall₂ hsubC hannF
      have hforallL :=
        (mapM_ok_iff (fun c : Annot => dictGetItem c.room "_id") r.combo l).mp hres
      have hlc : l = cids := forall₂_ok_unique _ _ _ _ hforallL hfc
      refine ⟨?_, r.combo, ?_, hres, hcapC⟩
      · rw [hlc]
        exact hNodupf.sublist hcsub
      · intro e he
        have hea := hsubC.subset he
        exact ⟨hmemc e hea, hcap e hea⟩
    | none =>
      dsimp only at hres
      cases hsort : sortedByKey anns with
      | error e =>
        rw [hsort, exceptBind_err] at hres
        exact absurd hres (by simp)
      | ok sorted =>
      rw [hsort, exceptBind_ok] at hres
      cases hgl : greedyLoop guests sorted 0 [] with
      | error e =>
        rw [hgl, exceptBind_err] at hres
        exact absurd hres (by simp)
      | ok res =>
      rw [hgl, exceptBind_ok] at hres
      obtain ⟨totF, picked⟩ := res
      dsimp only at hres
      have hl : (if totF < guests then [] else picked) = l := Except.ok.inj hres
      by_cases hlt : totF < guests
      · rw [if_pos hlt] at hl
        exact absurd hl.symm hne
      · rw [if_neg hlt] at hl
        subst hl
        obtain ⟨pre, hpresub, ⟨pids, hfa, hout⟩, htot⟩ :=
          greedyLoop_spec guests sorted 0 [] (totF, picked) hgl
        dsimp only at hout htot
        rw [List.nil_append] at hout
        subst hout
        have hperm : anns.Perm sorted := (sortedByKey_perm anns sorted hsort).symm
        obtain ⟨sids, hfs, hpermids⟩ := perm_forall₂ hperm hannF
        obtain ⟨pids', hfp', hpsub⟩ := sublist_forall₂ hpresub hfs
        have hpp : picked = pids' := forall₂_ok_unique _ _ _ _ hfa hfp'
        have hNodups : sids.Nodup := hpermids.nodup hNodupf
        refine ⟨?_, pre, ?_, (mapM_ok_iff _ _ _).mpr hfa, ?_⟩
        · rw [hpp]
          exact hNodups.sublist hpsub
        · intro e he
          have hea : e ∈ anns := hperm.mem_iff.mpr (hpresub.subset he)
          exact ⟨hmemc e hea, hcap e hea⟩
        · omega

/-- C10 witness: the three distinct rooms A(cap 2), B(cap 3), C(cap 5) with
6 guests — the returned ids [B, C] are distinct ids of candidate rooms
whose capacities sum to at least 6. -/
theorem allocator_ids_distinct_and_sufficient_witness :
    ([VStr "B", VStr "C"] : List Val).Nodup ∧ ∃ sub : List Annot,
      (∀ e ∈ sub, e.room ∈ [roomA, roomB, roomC]
          ∧ room_capacity (some e.room) false = .ok e.cap)
      ∧ sub.mapM (fun e => dictGetItem e.room "_id") = .ok [VStr "B", VStr "C"]
      ∧ (6 : Int) ≤ (sub.map (·.cap)).sum :=
  allocator_ids_distinct_and_sufficient [roomA, roomB, roomC] 6 false none 4
    [VStr "A", VStr "B", VStr "C"] [VStr "B", VStr "C"]
    (by decide) (by decide) (by decide) (by decide) (by decide)
